import Mathlib

/-!
Shallow embedding of the `trading-shared` position-monitoring core.

Conventions of the embedding:
* Rust `f64` amounts, prices and percentages are modelled as `ℚ`; the
  properties settled here are order/bookkeeping properties, not rounding
  properties of binary floating point.
* `SortedVec<K, V>` is modelled as a `List` of entries upserted in key
  order (`setPrice` / `addAmount` below mirror the `get_mut` +
  `insert_or_replace` pattern of the source on sorted lists).
* Hash maps (`AHashMap`) are modelled as association lists.
* Timestamps (`DateTimeAsMicroseconds`) are modelled as `ℕ`
  (microseconds); operations that call `now()` in the source take the
  current time as an explicit `now` argument.
* A Rust `panic!` in a branch that callers guard against is modelled as
  a harmless total default (noted at each definition).
-/

namespace TradingShared

/-- `AssetSymbol` newtype of the source, modelled as a plain string. -/
abbrev AssetSymbol := String

/-- `InstrumentSymbol` newtype of the source, modelled as a plain string. -/
abbrev InstrumentSymbol := String

/-- `PositionId` newtype (a UUID in the source), modelled as a string. -/
abbrev PositionId := String

/-- `WalletId` newtype of the source, modelled as a string. -/
abbrev WalletId := String

/-- `assets.rs`: an amount of one asset. -/
structure AssetAmount where
  symbol : AssetSymbol
  amount : ℚ
  deriving Repr, DecidableEq

/-- `assets.rs`: a price of one asset. -/
structure AssetPrice where
  symbol : AssetSymbol
  price : ℚ
  deriving Repr, DecidableEq

/-- `orders.rs`: side of an order. -/
inductive OrderSide where
  | Buy
  | Sell
  deriving Repr, DecidableEq

/-- `orders.rs`: unit of a take-profit / stop-loss configuration. -/
inductive AutoClosePositionUnit where
  | AssetAmount
  | PriceRate
  deriving Repr, DecidableEq

/-- `positions.rs` `ClosePositionReason`. -/
inductive ClosePositionReason where
  | ClientCommand
  | StopOut
  | TakeProfit
  | StopLoss
  | AdminCommand
  | InsufficientBalance
  deriving Repr, DecidableEq

/-- `positions.rs` `PositionStatus`. -/
inductive PositionStatus where
  | Pending
  | Active
  | Filled
  | Canceled
  deriving Repr, DecidableEq

/-- Rust `str::starts_with`, evaluated on the character lists of the
two strings (byte order and character order agree on the symbols this
code handles). -/
def strStartsWith (s pre : String) : Bool :=
  pre.data.isPrefixOf s.data

/-- Strict ordering of symbols (the `Ord` instance `SortedVec` keys
on), evaluated on the character lists of the two strings. -/
def symLt (a b : AssetSymbol) : Bool :=
  decide (a.data < b.data)

/-- Look up the price of `sym` in a price list (`SortedVec::get`). -/
def lookupPrice (prices : List AssetPrice) (sym : AssetSymbol) : Option ℚ :=
  (prices.find? (fun e => e.symbol = sym)).map (fun e => e.price)

/-- Upsert of a price entry: replace the entry of `sym` if present,
otherwise insert it at its key-ordered place.  This is the net effect of
the source's `get_mut` / `insert_or_replace` pair on a `SortedVec`. -/
def setPrice : List AssetPrice → AssetSymbol → ℚ → List AssetPrice
  | [], sym, p => [⟨sym, p⟩]
  | x :: xs, sym, p =>
    if x.symbol = sym then ⟨sym, p⟩ :: xs
    else if symLt sym x.symbol then ⟨sym, p⟩ :: x :: xs
    else x :: setPrice xs sym p

/-- Look up the amount of `sym` in an amount list (`SortedVec::get`). -/
def lookupAmount (amounts : List AssetAmount) (sym : AssetSymbol) : Option ℚ :=
  (amounts.find? (fun e => e.symbol = sym)).map (fun e => e.amount)

/-- Additive merge of one asset amount: add to the entry of
`item.symbol` when present, otherwise insert the item at its key-ordered
place (the `get_mut` `+=` / `insert_or_replace` pattern of the source). -/
def addAmount : List AssetAmount → AssetAmount → List AssetAmount
  | [], item => [item]
  | x :: xs, item =>
    if x.symbol = item.symbol then ⟨x.symbol, x.amount + item.amount⟩ :: xs
    else if symLt item.symbol x.symbol then item :: x :: xs
    else x :: addAmount xs item

/-- Subtractive merge used by `try_cancel_top_ups`: subtract the item's
amount from the entry of its symbol and drop the entry when it falls to
`≤ 0`.  (The source `expect`s the entry to exist; a missing entry is
modelled as no change.) -/
def subAmount : List AssetAmount → AssetAmount → List AssetAmount
  | [], _ => []
  | x :: xs, item =>
    if x.symbol = item.symbol then
      if x.amount - item.amount ≤ 0 then xs
      else ⟨x.symbol, x.amount - item.amount⟩ :: xs
    else x :: subAmount xs item

/-- `calculations.rs` `calculate_percent`. -/
def calculate_percent (from_number number : ℚ) : ℚ :=
  number / from_number * 100

/-- `calculations.rs` `floor(x, precision)`: floor toward negative
infinity at `precision` decimal places. -/
def floorPrec (x : ℚ) (precision : ℕ) : ℚ :=
  ⌊x * 10 ^ precision⌋ / 10 ^ precision

/-- `calculate_total_amount` as used by `positions.rs`: value every
asset amount at its price and sum.  The source panics on a missing
price; the missing-price case is modelled as a zero contribution (all
call sites of the core keep a price for every valued asset). -/
def calculate_total_amount (asset_amounts : List AssetAmount)
    (asset_prices : List AssetPrice) : ℚ :=
  asset_amounts.foldl
    (fun acc item =>
      acc + (lookupPrice asset_prices item.symbol).getD 0 * item.amount) 0

/-- `orders.rs` `TakeProfitConfig`. -/
structure TakeProfitConfig where
  value : ℚ
  unit : AutoClosePositionUnit
  deriving Repr, DecidableEq

/-- `orders.rs` `TakeProfitConfig::is_triggered`, translated branch by
branch (note: the `AssetAmount` arm of the source compares
`self.value >= pnl`). -/
def TakeProfitConfig.is_triggered (c : TakeProfitConfig) (pnl close_price : ℚ)
    (side : OrderSide) : Bool :=
  match c.unit with
  | .AssetAmount => decide (c.value ≥ pnl)
  | .PriceRate =>
    match side with
    | .Buy => decide (c.value ≤ close_price)
    | .Sell => decide (c.value ≥ close_price)

/-- `orders.rs` `StopLossConfig`. -/
structure StopLossConfig where
  value : ℚ
  unit : AutoClosePositionUnit
  deriving Repr, DecidableEq

/-- `orders.rs` `StopLossConfig::is_triggered`, translated branch by
branch (note: the `AssetAmount` arm of the source compares
`self.value >= pnl`). -/
def StopLossConfig.is_triggered (c : StopLossConfig) (pnl close_price : ℚ)
    (side : OrderSide) : Bool :=
  match c.unit with
  | .AssetAmount => decide (c.value ≥ pnl)
  | .PriceRate =>
    match side with
    | .Buy => decide (c.value ≥ close_price)
    | .Sell => decide (c.value ≤ close_price)

/-- The spec's trigger rule for a take-profit in `AssetAmount` unit:
the take-profit triggers exactly when `pnl ≥ value`. -/
def specTakeProfitAssetAmountTriggered (value pnl : ℚ) : Bool :=
  decide (pnl ≥ value)

/-- The spec's trigger rule for a stop-loss in `AssetAmount` unit: the
stop-loss triggers exactly when `pnl` is negative and `|pnl| ≥ value`. -/
def specStopLossAssetAmountTriggered (value pnl : ℚ) : Bool :=
  decide (pnl < 0 ∧ |pnl| ≥ value)

/-- `orders.rs` `Order` (the evolution `positions.rs` compiles
against: sorted-vec invest assets, `trader_id`, symbol newtypes). -/
structure Order where
  id : String
  wallet_id : WalletId
  trader_id : String
  instrument : InstrumentSymbol
  base_asset : AssetSymbol
  invest_assets : List AssetAmount
  leverage : ℚ
  created_date : ℕ
  side : OrderSide
  take_profit : Option TakeProfitConfig
  stop_loss : Option StopLossConfig
  stop_out_percent : ℚ
  margin_call_percent : ℚ
  top_up_enabled : Bool
  top_up_percent : ℚ
  funding_fee_period : Option ℕ
  desire_price : Option ℚ
  deriving Repr, DecidableEq

/-- `orders.rs` `Order::calculate_volume`. -/
def Order.calculate_volume (o : Order) (invest_amount : ℚ) : ℚ :=
  invest_amount * o.leverage

/-- `positions.rs` `BidAsk`. -/
structure BidAsk where
  instrument : InstrumentSymbol
  datetime : ℕ
  bid : ℚ
  ask : ℚ
  deriving Repr, DecidableEq

/-- `BidAsk::get_instrument_symbol`: concatenation of the two symbols. -/
def BidAsk.get_instrument_symbol (base_asset quote_asset : AssetSymbol) :
    InstrumentSymbol :=
  base_asset ++ quote_asset

/-- `BidAsk::get_close_price`: Buy → bid, Sell → ask. -/
def BidAsk.get_close_price (b : BidAsk) (side : OrderSide) : ℚ :=
  match side with
  | .Buy => b.bid
  | .Sell => b.ask

/-- `BidAsk::get_open_price`: Buy → ask, Sell → bid. -/
def BidAsk.get_open_price (b : BidAsk) (side : OrderSide) : ℚ :=
  match side with
  | .Buy => b.ask
  | .Sell => b.bid

/-- `BidAsk::get_asset_price`: Sell → ask, Buy → bid, guarded by the
instrument starting with the asset symbol.  The source panics when the
guard fails; that structurally-invalid case is modelled as price `0`
(every call site of the core checks `asset ++ base = instrument`
first, which makes the guard true). -/
def BidAsk.get_asset_price (b : BidAsk) (asset : AssetSymbol)
    (side : OrderSide) : ℚ :=
  match side with
  | .Sell => if strStartsWith b.instrument asset then b.ask else 0
  | .Buy => if strStartsWith b.instrument asset then b.bid else 0

/-- `top_ups.rs` `ActiveTopUp`. -/
structure ActiveTopUp where
  id : String
  date : ℕ
  total_assets : List AssetAmount
  instrument_price : ℚ
  asset_prices : List AssetPrice
  bonus_assets : List AssetAmount
  deriving Repr, DecidableEq

/-- `top_ups.rs` `CanceledTopUp`. -/
structure CanceledTopUp where
  id : String
  date : ℕ
  total_assets : List AssetAmount
  instrument_price : ℚ
  asset_prices : List AssetPrice
  cancel_instrument_price : ℚ
  cancel_date : ℕ
  bonus_assets : List AssetAmount
  deriving Repr, DecidableEq

/-- `ActiveTopUp::cancel`, with the `now` read of the source passed
explicitly as `cancel_date`. -/
def ActiveTopUp.cancel (t : ActiveTopUp) (instrument_price : ℚ) (now : ℕ) :
    CanceledTopUp :=
  { id := t.id
    date := t.date
    total_assets := t.total_assets
    instrument_price := t.instrument_price
    asset_prices := t.asset_prices
    cancel_instrument_price := instrument_price
    cancel_date := now
    bonus_assets := t.bonus_assets }

/-- `positions.rs` `PendingPosition`. -/
structure PendingPosition where
  id : PositionId
  order : Order
  open_price : ℚ
  open_date : ℕ
  open_asset_prices : List AssetPrice
  current_price : ℚ
  current_asset_prices : List AssetPrice
  last_update_date : ℕ
  total_invest_assets : List AssetAmount
  deriving Repr, DecidableEq

/-- `positions.rs` `ActivePosition`. -/
structure ActivePosition where
  id : PositionId
  order : Order
  open_price : ℚ
  open_date : ℕ
  open_asset_prices : List AssetPrice
  activate_price : ℚ
  activate_date : ℕ
  activate_asset_prices : List AssetPrice
  current_price : ℚ
  current_asset_prices : List AssetPrice
  last_update_date : ℕ
  top_ups : List ActiveTopUp
  current_pnl : ℚ
  current_loss_percent : ℚ
  prev_loss_percent : ℚ
  top_up_locked : Bool
  total_invest_assets : List AssetAmount
  bonus_invest_assets : List AssetAmount
  deriving Repr, DecidableEq

/-- `positions.rs` `ClosedPosition`. -/
structure ClosedPosition where
  id : PositionId
  order : Order
  open_price : ℚ
  open_date : ℕ
  open_asset_prices : List AssetPrice
  activate_price : Option ℚ
  activate_date : Option ℕ
  activate_asset_prices : List AssetPrice
  close_price : ℚ
  close_date : ℕ
  close_reason : ClosePositionReason
  close_asset_prices : List AssetPrice
  pnl : Option ℚ
  asset_pnls : List AssetAmount
  top_ups : List ActiveTopUp
  total_invest_assets : List AssetAmount
  invest_bonus_assets : List AssetAmount
  deriving Repr, DecidableEq

/-- `ClosedPosition::get_status`: `Canceled` when `total_invest_assets`
is empty, `Filled` otherwise — translated exactly as written. -/
def ClosedPosition.get_status (p : ClosedPosition) : PositionStatus :=
  if p.total_invest_assets.isEmpty then PositionStatus.Canceled
  else PositionStatus.Filled

/-- One step of `update_asset_prices` / `try_update_asset_price`: when
the invested asset's synthetic instrument is the ticked instrument,
upsert that asset's current price from the tick. -/
def updateAssetPricesStep (b : BidAsk) (base_asset : AssetSymbol)
    (prices : List AssetPrice) (asset : AssetAmount) : List AssetPrice :=
  if BidAsk.get_instrument_symbol asset.symbol base_asset = b.instrument then
    setPrice prices asset.symbol (b.get_asset_price asset.symbol .Sell)
  else prices

/-- `PendingPosition::update_instrument_price`. -/
def PendingPosition.update_instrument_price (p : PendingPosition)
    (b : BidAsk) : PendingPosition :=
  if p.order.instrument = b.instrument then
    { p with current_price := b.get_open_price p.order.side }
  else p

/-- `PendingPosition::update_asset_prices` (iterates
`order.invest_assets`). -/
def PendingPosition.update_asset_prices (p : PendingPosition)
    (b : BidAsk) : PendingPosition :=
  { p with
    current_asset_prices :=
      p.order.invest_assets.foldl
        (updateAssetPricesStep b p.order.base_asset) p.current_asset_prices }

/-- `PendingPosition::update`, with the `now()` read passed
explicitly. -/
def PendingPosition.update (p : PendingPosition) (b : BidAsk) (now : ℕ) :
    PendingPosition :=
  { (p.update_instrument_price b).update_asset_prices b with
    last_update_date := now }

/-- `PendingPosition::is_price_reached`: the four-way limit/stop check.
The source panics when `desire_price` is `None`; that case is modelled
as `false` (pending positions are only built with a desired price). -/
def PendingPosition.is_price_reached (p : PendingPosition) : Bool :=
  match p.order.desire_price with
  | none => false
  | some desired_price =>
    let is_limit_sell :=
      p.order.side = OrderSide.Sell ∧ p.open_price ≤ desired_price
    let is_limit_buy :=
      p.order.side = OrderSide.Buy ∧ p.open_price ≥ desired_price
    let is_stop_sell :=
      p.order.side = OrderSide.Sell ∧ p.open_price ≥ desired_price
    let is_stop_buy :=
      p.order.side = OrderSide.Buy ∧ p.open_price ≤ desired_price
    decide ((is_limit_sell ∧ p.current_price ≥ desired_price)
      ∨ (is_limit_buy ∧ p.current_price ≤ desired_price)
      ∨ (is_stop_sell ∧ p.current_price ≤ desired_price)
      ∨ (is_stop_buy ∧ p.current_price ≥ desired_price))

/-- `PendingPosition::can_activate`. -/
def PendingPosition.can_activate (p : PendingPosition) : Bool :=
  if p.total_invest_assets.isEmpty then false
  else if !p.is_price_reached then false
  else true

/-- `PendingPosition::activate`, with the `now()` read passed
explicitly. -/
def PendingPosition.activate (p : PendingPosition) (now : ℕ) :
    Except String ActivePosition :=
  if !p.is_price_reached then
    Except.error "desire price is not reached"
  else if p.total_invest_assets.isEmpty then
    Except.error "total invest assets is empty"
  else
    Except.ok
      { id := p.id
        order := { p.order with invest_assets := p.total_invest_assets }
        open_price := p.open_price
        open_date := p.open_date
        open_asset_prices := p.open_asset_prices
        activate_price := p.current_price
        activate_date := now
        activate_asset_prices := p.current_asset_prices
        current_price := p.current_price
        current_asset_prices := p.current_asset_prices
        last_update_date := now
        top_ups := []
        current_pnl := 0
        current_loss_percent := 0
        prev_loss_percent := 0
        top_up_locked := false
        total_invest_assets := p.total_invest_assets
        bonus_invest_assets := [] }

/-- `PendingPosition::add_invest_assets`.  The source mutates
`total_invest_assets` item by item and returns `Err` on the first item
whose asset has no open-price snapshot; the partially mutated position
is kept.  Modelled as the pair of the resulting position and the
optional error string. -/
def PendingPosition.add_invest_assets (p : PendingPosition)
    (amounts_by_assets : List AssetAmount) :
    PendingPosition × Option String :=
  match amounts_by_assets with
  | [] => (p, none)
  | item :: rest =>
    if (p.open_asset_prices.find? (fun e => e.symbol = item.symbol)).isNone then
      (p, some ("Can't invest '" ++ item.symbol ++ "': not found open price"))
    else
      PendingPosition.add_invest_assets
        { p with total_invest_assets := addAmount p.total_invest_assets item }
        rest

/-- `PendingPosition::close`, with the `now()` read passed explicitly. -/
def PendingPosition.close (p : PendingPosition)
    (reason : ClosePositionReason) (now : ℕ) : ClosedPosition :=
  { pnl := none
    asset_pnls := []
    open_price := p.open_price
    open_date := p.open_date
    open_asset_prices := p.open_asset_prices
    activate_date := none
    activate_price := none
    activate_asset_prices := []
    close_date := now
    close_price := p.current_price
    close_reason := reason
    close_asset_prices := p.current_asset_prices
    id := p.id
    top_ups := []
    total_invest_assets := p.total_invest_assets
    order := p.order
    invest_bonus_assets := [] }

/-- `ActivePosition::try_update_instrument_price`. -/
def ActivePosition.try_update_instrument_price (p : ActivePosition)
    (b : BidAsk) : ActivePosition :=
  if p.order.instrument = b.instrument then
    { p with current_price := b.get_close_price p.order.side }
  else p

/-- `ActivePosition::try_update_asset_price` (iterates
`total_invest_assets`). -/
def ActivePosition.try_update_asset_price (p : ActivePosition)
    (b : BidAsk) : ActivePosition :=
  { p with
    current_asset_prices :=
      p.total_invest_assets.foldl
        (updateAssetPricesStep b p.order.base_asset) p.current_asset_prices }

/-- `ActivePosition::calculate_pnl`: per-lot pnl of `invest_amount`
opened at `initial_price`, valued at the position's current price. -/
def ActivePosition.calculate_pnl (p : ActivePosition)
    (invest_amount initial_price : ℚ) : ℚ :=
  let volume := p.order.calculate_volume invest_amount
  match p.order.side with
  | .Buy => (p.current_price / initial_price - 1) * volume
  | .Sell => (p.current_price / initial_price - 1) * -volume

/-- `ActivePosition::calc_order_pnls_by_assets`: pnl of the order's own
invested assets at `activate_price`. -/
def ActivePosition.calc_order_pnls_by_assets (p : ActivePosition) :
    List AssetAmount :=
  p.order.invest_assets.foldl
    (fun acc item =>
      acc ++ [⟨item.symbol, p.calculate_pnl item.amount p.activate_price⟩])
    []

/-- `ActivePosition::calc_top_ups_pnls_by_assets`: pnl of every top-up
lot at the lot's own entry price, floored at `−amount` (isolated-margin
cap), merged additively per asset. -/
def ActivePosition.calc_top_ups_pnls_by_assets (p : ActivePosition) :
    List AssetAmount :=
  p.top_ups.foldl
    (fun acc top_up =>
      top_up.total_assets.foldl
        (fun acc item =>
          let pnl := p.calculate_pnl item.amount top_up.instrument_price
          let max_loss_amount := item.amount * -1
          let pnl := if pnl < max_loss_amount then max_loss_amount else pnl
          addAmount acc ⟨item.symbol, pnl⟩)
        acc)
    []

/-- Merge step of `calc_pnls_by_assets`: add the pnl entry, applying
the optional decimal floor after every merge exactly as the source
does. -/
def mergePnl (pnl_accuracy : Option ℕ) (acc : List AssetAmount)
    (item : AssetAmount) : List AssetAmount :=
  match acc.find? (fun e => e.symbol = item.symbol) with
  | some _ =>
    acc.map (fun e =>
      if e.symbol = item.symbol then
        let amount := e.amount + item.amount
        ⟨e.symbol,
          match pnl_accuracy with
          | some a => floorPrec amount a
          | none => amount⟩
      else e)
  | none =>
    let amount :=
      match pnl_accuracy with
      | some a => floorPrec item.amount a
      | none => item.amount
    acc ++ [⟨item.symbol, amount⟩]

/-- `ActivePosition::calc_pnls_by_assets`: order pnls then top-up pnls,
merged per asset with the optional decimal floor. -/
def ActivePosition.calc_pnls_by_assets (p : ActivePosition)
    (pnl_accuracy : Option ℕ) : List AssetAmount :=
  let asset_pnls :=
    p.calc_order_pnls_by_assets.foldl (mergePnl pnl_accuracy) []
  p.calc_top_ups_pnls_by_assets.foldl (mergePnl pnl_accuracy) asset_pnls

/-- `ActivePosition::update_pnl`: recompute `current_pnl`, snapshot
`prev_loss_percent`, recompute `current_loss_percent`. -/
def ActivePosition.update_pnl (p : ActivePosition) : ActivePosition :=
  let pnls_by_assets := p.calc_pnls_by_assets none
  let current_pnl := calculate_total_amount pnls_by_assets p.current_asset_prices
  { p with
    current_pnl := current_pnl
    prev_loss_percent := p.current_loss_percent
    current_loss_percent :=
      if current_pnl < 0 then
        calculate_percent
          (calculate_total_amount p.total_invest_assets p.current_asset_prices)
          |current_pnl|
      else 0 }

/-- `ActivePosition::update`: refresh instrument price, refresh asset
prices, recompute pnl. -/
def ActivePosition.update (p : ActivePosition) (b : BidAsk) : ActivePosition :=
  ((p.try_update_instrument_price b).try_update_asset_price b).update_pnl

/-- `ActivePosition::is_take_profit`. -/
def ActivePosition.is_take_profit (p : ActivePosition) : Bool :=
  match p.order.take_profit with
  | some c => c.is_triggered p.current_pnl p.current_price p.order.side
  | none => false

/-- `ActivePosition::is_stop_loss`. -/
def ActivePosition.is_stop_loss (p : ActivePosition) : Bool :=
  match p.order.stop_loss with
  | some c => c.is_triggered p.current_pnl p.current_price p.order.side
  | none => false

/-- `ActivePosition::is_top_up`: false when locked or disabled, else
loss% at or above the top-up threshold. -/
def ActivePosition.is_top_up (p : ActivePosition) : Bool :=
  if p.top_up_locked then false
  else if !p.order.top_up_enabled then false
  else decide (p.current_loss_percent ≥ p.order.top_up_percent)

/-- `ActivePosition::is_stop_out`: suppressed by top-up eligibility,
else loss% at or above the stop-out threshold. -/
def ActivePosition.is_stop_out (p : ActivePosition) : Bool :=
  if p.is_top_up then false
  else decide (p.current_loss_percent ≥ p.order.stop_out_percent)

/-- `ActivePosition::is_margin_call`: never when top-up is enabled,
else edge-triggered on the loss% crossing the margin-call threshold. -/
def ActivePosition.is_margin_call (p : ActivePosition) : Bool :=
  if p.order.top_up_enabled then false
  else decide (p.current_loss_percent ≥ p.order.margin_call_percent
    ∧ p.prev_loss_percent < p.order.margin_call_percent)

/-- `ActivePosition::determine_close_reason`: StopOut, then StopLoss,
then TakeProfit, else none. -/
def ActivePosition.determine_close_reason (p : ActivePosition) :
    Option ClosePositionReason :=
  if p.is_stop_out then some ClosePositionReason.StopOut
  else if p.is_stop_loss then some ClosePositionReason.StopLoss
  else if p.is_take_profit then some ClosePositionReason.TakeProfit
  else none

/-- `ActivePosition::add_top_up`: merge the top-up's prices and
amounts, append it to the history, recompute pnl. -/
def ActivePosition.add_top_up (p : ActivePosition) (top_up : ActiveTopUp) :
    ActivePosition :=
  let p :=
    { p with
      current_asset_prices :=
        top_up.asset_prices.foldl
          (fun acc (item : AssetPrice) => setPrice acc item.symbol item.price)
          p.current_asset_prices }
  let p :=
    { p with
      total_invest_assets :=
        top_up.total_assets.foldl addAmount p.total_invest_assets }
  let p :=
    { p with
      bonus_invest_assets :=
        top_up.bonus_assets.foldl addAmount p.bonus_invest_assets }
  ActivePosition.update_pnl { p with top_ups := p.top_ups ++ [top_up] }

/-- `ActivePosition::close`, with the `now()` read passed explicitly. -/
def ActivePosition.close (p : ActivePosition) (reason : ClosePositionReason)
    (pnl_accuracy : Option ℕ) (now : ℕ) : ClosedPosition :=
  let pnls_by_assets := p.calc_pnls_by_assets pnl_accuracy
  let total_pnl := calculate_total_amount pnls_by_assets p.current_asset_prices
  let total_pnl :=
    match pnl_accuracy with
    | some a => floorPrec total_pnl a
    | none => total_pnl
  { total_invest_assets := p.total_invest_assets
    pnl := some total_pnl
    asset_pnls := pnls_by_assets
    open_price := p.open_price
    open_date := p.open_date
    open_asset_prices := p.open_asset_prices
    activate_date := some p.activate_date
    activate_price := some p.activate_price
    activate_asset_prices := p.activate_asset_prices
    close_date := now
    close_price := p.current_price
    close_reason := reason
    close_asset_prices := p.current_asset_prices
    order := p.order
    id := p.id
    top_ups := p.top_ups
    invest_bonus_assets := p.bonus_invest_assets }

/-- One retain step of `ActivePosition::try_cancel_top_ups`: decide
whether the top-up stays, and when it is cancelled subtract its
amounts and record the cancellation.  The accumulator carries the
kept list, the cancellation list and the mutated asset totals. -/
def cancelTopUpStep (side : OrderSide) (current_price : ℚ)
    (price_change_percent : ℚ) (delay_start_date : ℕ) (now : ℕ)
    (acc : List ActiveTopUp × List CanceledTopUp × List AssetAmount × List AssetAmount)
    (top_up : ActiveTopUp) :
    List ActiveTopUp × List CanceledTopUp × List AssetAmount × List AssetAmount :=
  let (kept, canceled, invest, bonus) := acc
  if delay_start_date < top_up.date then (kept ++ [top_up], canceled, invest, bonus)
  else
    let change_percent := price_change_percent / 100
    if side = OrderSide.Buy
        ∧ current_price < top_up.instrument_price * (1 + change_percent) then
      (kept ++ [top_up], canceled, invest, bonus)
    else if side = OrderSide.Sell
        ∧ current_price > top_up.instrument_price * (1 - change_percent) then
      (kept ++ [top_up], canceled, invest, bonus)
    else
      let invest := top_up.total_assets.foldl subAmount invest
      let bonus := top_up.bonus_assets.foldl subAmount bonus
      (kept, canceled ++ [top_up.cancel current_price now], invest, bonus)

/-- `ActivePosition::try_cancel_top_ups`: cancel every top-up past the
delay whose price has recovered past the threshold, subtracting its
assets; pnl is NOT recomputed here.  The `now()` read is passed
explicitly; `delay_start_date = now - delay` (saturating). -/
def ActivePosition.try_cancel_top_ups (p : ActivePosition)
    (price_change_percent : ℚ) (delay : ℕ) (now : ℕ) :
    ActivePosition × List CanceledTopUp :=
  if p.top_ups.isEmpty then (p, [])
  else
    let delay_start_date := now - delay
    let (kept, canceled, invest, bonus) :=
      p.top_ups.foldl
        (cancelTopUpStep p.order.side p.current_price price_change_percent
          delay_start_date now)
        ([], [], p.total_invest_assets, p.bonus_invest_assets)
    ({ p with
        top_ups := kept
        total_invest_assets := invest
        bonus_invest_assets := bonus },
      canceled)

/-- Association-list upsert used to model `AHashMap::insert`. -/
def alistInsert {α : Type} (l : List (String × α)) (k : String) (v : α) :
    List (String × α) :=
  if l.any (fun e => e.1 = k) then
    l.map (fun e => if e.1 = k then (k, v) else e)
  else l ++ [(k, v)]

/-- Association-list lookup used to model `AHashMap::get`. -/
def alistGet {α : Type} (l : List (String × α)) (k : String) : Option α :=
  (l.find? (fun e => e.1 = k)).map (fun e => e.2)

/-- Association-list removal used to model `AHashMap::remove`. -/
def alistRemove {α : Type} (l : List (String × α)) (k : String) :
    List (String × α) :=
  l.filter (fun e => e.1 ≠ k)

/-- `wallets.rs` `WalletBalance`. -/
structure WalletBalance where
  id : String
  asset_symbol : AssetSymbol
  asset_amount : ℚ
  is_locked : Bool
  deriving Repr, DecidableEq

/-- `wallets.rs` `Wallet`. -/
structure Wallet where
  id : WalletId
  trader_id : String
  total_unlocked_balance : ℚ
  margin_call_percent : ℚ
  current_loss_percent : ℚ
  prev_loss_percent : ℚ
  estimate_asset : AssetSymbol
  balances_by_instruments : List (InstrumentSymbol × WalletBalance)
  prices_by_assets : List (AssetSymbol × ℚ)
  top_up_pnls_by_instruments : List (InstrumentSymbol × ℚ)
  top_up_reserved_balance_by_instruments : List (InstrumentSymbol × ℚ)
  total_top_up_reserved_balance : ℚ
  deriving Repr, DecidableEq

/-- `Wallet::new`. -/
def Wallet.new (id : WalletId) (trader_id : String)
    (estimate_asset : AssetSymbol) (margin_call_percent : ℚ) : Wallet :=
  { id := id
    trader_id := trader_id
    total_unlocked_balance := 0
    estimate_asset := estimate_asset
    balances_by_instruments := []
    prices_by_assets := []
    margin_call_percent := margin_call_percent
    current_loss_percent := 0
    prev_loss_percent := 0
    top_up_pnls_by_instruments := []
    top_up_reserved_balance_by_instruments := []
    total_top_up_reserved_balance := 0 }

/-- `Wallet::set_top_up_reserved`, translated exactly as written:
revalue the supplied amounts at the latest known asset prices (amounts
without a known price contribute nothing); then, when the instrument
already has a reserved entry, subtract the old entry from the total and
overwrite the entry, and when it does not, add the new value to the
total and insert the entry. -/
def Wallet.set_top_up_reserved (w : Wallet) (instrument : InstrumentSymbol)
    (instrument_reserved : List AssetAmount) : Wallet :=
  let new_reserved :=
    instrument_reserved.foldl
      (fun acc item =>
        match alistGet w.prices_by_assets item.symbol with
        | some price => acc + price * item.amount
        | none => acc) 0
  match alistGet w.top_up_reserved_balance_by_instruments instrument with
  | some old_reserved =>
    { w with
      total_top_up_reserved_balance :=
        w.total_top_up_reserved_balance - old_reserved
      top_up_reserved_balance_by_instruments :=
        alistInsert w.top_up_reserved_balance_by_instruments instrument
          new_reserved }
  | none =>
    { w with
      total_top_up_reserved_balance :=
        w.total_top_up_reserved_balance + new_reserved
      top_up_reserved_balance_by_instruments :=
        alistInsert w.top_up_reserved_balance_by_instruments instrument
          new_reserved }

/-- `Wallet::get_instruments`: the keys of the balance map. -/
def Wallet.get_instruments (w : Wallet) : List InstrumentSymbol :=
  w.balances_by_instruments.map (fun e => e.1)

/-- `Wallet::set_top_up_pnl`. -/
def Wallet.set_top_up_pnl (w : Wallet) (instrument : InstrumentSymbol)
    (instrument_pnl : ℚ) : Wallet :=
  { w with
    top_up_pnls_by_instruments :=
      alistInsert w.top_up_pnls_by_instruments instrument instrument_pnl }

/-- `Wallet::deduct_top_up_pnl` (no-op when the instrument has no pnl
entry). -/
def Wallet.deduct_top_up_pnl (w : Wallet) (instrument : InstrumentSymbol)
    (instrument_pnl : ℚ) : Wallet :=
  match alistGet w.top_up_pnls_by_instruments instrument with
  | some pnl =>
    { w with
      top_up_pnls_by_instruments :=
        alistInsert w.top_up_pnls_by_instruments instrument
          (pnl - instrument_pnl) }
  | none => w

/-- `Wallet::add_top_up_pnl`. -/
def Wallet.add_top_up_pnl (w : Wallet) (instrument : InstrumentSymbol)
    (instrument_pnl : ℚ) : Wallet :=
  match alistGet w.top_up_pnls_by_instruments instrument with
  | some pnl =>
    { w with
      top_up_pnls_by_instruments :=
        alistInsert w.top_up_pnls_by_instruments instrument
          (pnl + instrument_pnl) }
  | none =>
    { w with
      top_up_pnls_by_instruments :=
        alistInsert w.top_up_pnls_by_instruments instrument instrument_pnl }

/-- `Wallet::calc_total_pnl`: sum of the per-instrument top-up pnls. -/
def Wallet.calc_total_pnl (w : Wallet) : ℚ :=
  w.top_up_pnls_by_instruments.foldl (fun acc e => acc + e.2) 0

/-- `Wallet::update_loss`: snapshot the previous loss percent and
recompute the current one from total pnl against balance plus reserved
collateral. -/
def Wallet.update_loss (w : Wallet) : Wallet :=
  let pnl := w.calc_total_pnl
  { w with
    prev_loss_percent := w.current_loss_percent
    current_loss_percent :=
      if pnl < 0 then
        calculate_percent
          (w.total_unlocked_balance + w.total_top_up_reserved_balance) |pnl|
      else 0 }

/-- `Wallet::is_margin_call`: edge-triggered on the loss percent
crossing the wallet's margin-call threshold. -/
def Wallet.is_margin_call (w : Wallet) : Bool :=
  decide (w.current_loss_percent ≥ w.margin_call_percent
    ∧ w.prev_loss_percent < w.margin_call_percent)

/-- `BidAsk::generate_id` as used by `wallets.rs`: the synthetic
instrument symbol `asset ++ estimate_asset`. -/
def BidAsk.generate_id (asset estimate_asset : AssetSymbol) :
    InstrumentSymbol :=
  asset ++ estimate_asset

/-- `Wallet::add_balance`: record the asset's price from the tick and,
when the balance is unlocked, add its value to the unlocked total. -/
def Wallet.add_balance (w : Wallet) (balance : WalletBalance) (b : BidAsk) :
    Except String Wallet :=
  let instrument_id := BidAsk.generate_id balance.asset_symbol w.estimate_asset
  if b.instrument ≠ instrument_id then
    Except.error ("BidAsk instrument must be " ++ instrument_id)
  else
    let price := b.get_asset_price balance.asset_symbol .Sell
    let w :=
      { w with
        prices_by_assets :=
          alistInsert w.prices_by_assets balance.asset_symbol price }
    let w :=
      if !balance.is_locked then
        { w with
          total_unlocked_balance :=
            w.total_unlocked_balance + balance.asset_amount * price }
      else w
    Except.ok
      { w with
        balances_by_instruments :=
          alistInsert w.balances_by_instruments instrument_id balance }

/-- `Wallet::update_balance`: replace an existing balance entry and,
when the new balance is unlocked, swap its valuation into the unlocked
total at the stored price.  (The source `expect`s the stored price; a
missing price is modelled as price `0`.) -/
def Wallet.update_balance (w : Wallet) (balance : WalletBalance) :
    Except String Wallet :=
  let id := BidAsk.generate_id balance.asset_symbol w.estimate_asset
  match alistGet w.balances_by_instruments id with
  | none => Except.error "Balance not found"
  | some inner_balance =>
    let w :=
      { w with balances_by_instruments := alistRemove w.balances_by_instruments id }
    let w :=
      if !balance.is_locked then
        let price : ℚ := (alistGet w.prices_by_assets inner_balance.asset_symbol).getD 0
        { w with
          total_unlocked_balance :=
            w.total_unlocked_balance - inner_balance.asset_amount * price
              + balance.asset_amount * price }
      else w
    Except.ok
      { w with
        balances_by_instruments :=
          alistInsert w.balances_by_instruments id balance }

/-- `Wallet::update_price`, translated exactly as written: when the
wallet holds a balance under the ticked instrument, read the new asset
price, and when that balance `is_locked` rebase the unlocked total by
the price change; finally store the new price.  (The source `expect`s
the stored old price; a missing old price is modelled as price `0`.) -/
def Wallet.update_price (w : Wallet) (b : BidAsk) : Wallet :=
  match alistGet w.balances_by_instruments b.instrument with
  | none => w
  | some balance =>
    let new_price := b.get_asset_price balance.asset_symbol .Sell
    let old_price : ℚ := (alistGet w.prices_by_assets balance.asset_symbol).getD 0
    let w :=
      if balance.is_locked then
        { w with
          total_unlocked_balance :=
            w.total_unlocked_balance - balance.asset_amount * old_price
              + balance.asset_amount * new_price }
      else w
    { w with
      prices_by_assets :=
        alistInsert w.prices_by_assets balance.asset_symbol new_price }

/-- `positions.rs` `Position`: the Pending | Active | Closed tagged
union. -/
inductive Position where
  | Active (p : ActivePosition)
  | Closed (p : ClosedPosition)
  | Pending (p : PendingPosition)
  deriving Repr, DecidableEq

/-- `Position::get_id`. -/
def Position.get_id : Position → PositionId
  | .Active p => p.id
  | .Closed p => p.id
  | .Pending p => p.id

/-- `Position::get_order`. -/
def Position.get_order : Position → Order
  | .Active p => p.order
  | .Closed p => p.order
  | .Pending p => p.order

/-- Modelled from the spec: the `PositionsCache` evolution that
`monitoring.rs` is written against (one-argument `remove`, `get_mut`,
`contains_by_wallet_id`, `add`) is not under `src/` — `caches.rs` holds
an older incompatible version.  The spec treats this container as an
external collaborator "consumed via add/remove/get/contains/
get-by-secondary-key contracts" (§1), so it is modelled as a map from
position id to position, with the wallet-id secondary key read off the
stored positions' orders. -/
abbrev PositionsCache := List (PositionId × Position)

/-- Modelled from the spec: cache lookup by position id (`get_mut`). -/
def PositionsCache.get (c : PositionsCache) (id : PositionId) :
    Option Position :=
  alistGet c id

/-- Modelled from the spec: write back a position under its id (the
effect of mutating through `get_mut`). -/
def PositionsCache.set (c : PositionsCache) (id : PositionId)
    (p : Position) : PositionsCache :=
  alistInsert c id p

/-- Modelled from the spec: `PositionsCache::add` (keyed by the
position's own id). -/
def PositionsCache.add (c : PositionsCache) (p : Position) : PositionsCache :=
  alistInsert c p.get_id p

/-- Modelled from the spec: `PositionsCache::remove`, returning the
removed position. -/
def PositionsCache.remove (c : PositionsCache) (id : PositionId) :
    Option Position × PositionsCache :=
  (alistGet c id, alistRemove c id)

/-- Modelled from the spec: `PositionsCache::contains_by_wallet_id`
(the by-wallet secondary key). -/
def PositionsCache.contains_by_wallet_id (c : PositionsCache)
    (wallet_id : WalletId) : Bool :=
  c.any (fun e => e.2.get_order.wallet_id = wallet_id)

/-- `monitoring.rs` `PositionLockReason`. -/
inductive PositionLockReason where
  | TopUp (p : ActivePosition)
  | TopUpsCanceled (p : ActivePosition) (canceled : List CanceledTopUp)
  | ActivationPending (p : PendingPosition)
  deriving Repr, DecidableEq

/-- `monitoring.rs` `WalletMarginCallInfo`. -/
structure WalletMarginCallInfo where
  loss_percent : ℚ
  pnl : ℚ
  wallet_id : WalletId
  trader_id : String
  deriving Repr, DecidableEq

/-- `monitoring.rs` `PositionMonitoringEvent`. -/
inductive PositionMonitoringEvent where
  | PositionClosed (p : ClosedPosition)
  | PositionActivated (p : ActivePosition)
  | PositionMarginCall (p : ActivePosition)
  | PositionLocked (reason : PositionLockReason)
  | WalletMarginCall (info : WalletMarginCallInfo)
  deriving Repr, DecidableEq

/-- The position id an event refers to, if any (`WalletMarginCall`
events refer to a wallet, not a position). -/
def PositionMonitoringEvent.positionId :
    PositionMonitoringEvent → Option PositionId
  | .PositionClosed p => some p.id
  | .PositionActivated p => some p.id
  | .PositionMarginCall p => some p.id
  | .PositionLocked (.TopUp p) => some p.id
  | .PositionLocked (.TopUpsCanceled p _) => some p.id
  | .PositionLocked (.ActivationPending p) => some p.id
  | .WalletMarginCall _ => none

/-- `locked_ids` insertion (`SortedVec::insert_or_replace` on an id
set): a no-op when the id is already present. -/
def lockedInsert (l : List PositionId) (id : PositionId) : List PositionId :=
  if id ∈ l then l else l ++ [id]

/-- `monitoring.rs` `PositionsMonitor` (the index sorted-vecs are
modelled as association lists of id lists). -/
structure PositionsMonitor where
  positions_cache : PositionsCache
  ids_by_instruments : List (InstrumentSymbol × List PositionId)
  cancel_top_up_delay : ℕ
  cancel_top_up_price_change_percent : ℚ
  locked_ids : List PositionId
  pnl_accuracy : Option ℕ
  wallets_by_ids : List (WalletId × Wallet)
  wallet_ids_by_instruments : List (InstrumentSymbol × List WalletId)

/-- `PositionsMonitor::unlock`. -/
def PositionsMonitor.unlock (m : PositionsMonitor) (position_id : PositionId) :
    PositionsMonitor :=
  { m with locked_ids := m.locked_ids.filter (fun i => i ≠ position_id) }

/-- `PositionsMonitor::remove_wallet`: drop the wallet and clear its id
from the wallet index of every instrument it held a balance under. -/
def PositionsMonitor.remove_wallet (m : PositionsMonitor)
    (wallet_id : WalletId) : PositionsMonitor :=
  match alistGet m.wallets_by_ids wallet_id with
  | none => m
  | some wallet =>
    let m := { m with wallets_by_ids := alistRemove m.wallets_by_ids wallet_id }
    { m with
      wallet_ids_by_instruments :=
        wallet.get_instruments.foldl
          (fun idx instrument =>
            match alistGet idx instrument with
            | some ids =>
              alistInsert idx instrument (ids.filter (fun i => i ≠ wallet_id))
            | none => idx)
          m.wallet_ids_by_instruments }

/-- Accumulator threaded through the retain loop of
`PositionsMonitor::update`. -/
structure UpdateAcc where
  kept : List PositionId
  cache : PositionsCache
  locked : List PositionId
  events : List PositionMonitoringEvent
  top_up_pnls : List (WalletId × ℚ)
  wallet_ids_to_remove : List WalletId
  top_up_reserved : List (WalletId × List AssetAmount)

/-- The accumulation of a surviving top-up-enabled active position's
pnl and reserved collateral into the per-wallet batch totals
(`monitoring.rs` lines 386-420).  Note the source seeds a wallet's
reserved entry from `order.invest_assets` but merges later positions
from `total_invest_assets`; both are translated as written. -/
def accumulateWalletTotals (acc : UpdateAcc) (p : ActivePosition) : UpdateAcc :=
  if p.order.top_up_enabled then
    let top_up_pnls :=
      match alistGet acc.top_up_pnls p.order.wallet_id with
      | some pnl => alistInsert acc.top_up_pnls p.order.wallet_id (pnl + p.current_pnl)
      | none => alistInsert acc.top_up_pnls p.order.wallet_id p.current_pnl
    let top_up_reserved :=
      match alistGet acc.top_up_reserved p.order.wallet_id with
      | some reserved_by_assets =>
        alistInsert acc.top_up_reserved p.order.wallet_id
          (p.total_invest_assets.foldl addAmount reserved_by_assets)
      | none =>
        alistInsert acc.top_up_reserved p.order.wallet_id p.order.invest_assets
    { acc with top_up_pnls := top_up_pnls, top_up_reserved := top_up_reserved }
  else acc

/-- The close evaluation at the end of the retain step's Active arm
(`monitoring.rs` lines 364-423): when `determine_close_reason` yields a
reason, remove the position, close it, schedule the wallet removal
check and emit `PositionClosed`, dropping the id; otherwise accumulate
the surviving position's batch totals and keep the id.  The source's
`expect`/`panic` arms (a cache entry changing variant between `get_mut`
and `remove`) are modelled as keeping the id unchanged; they are
unreachable because `remove` returns the entry just written back. -/
def closeStage (pnl_accuracy : Option ℕ) (now : ℕ) (acc : UpdateAcc)
    (position_id : PositionId) (position : ActivePosition) : UpdateAcc :=
  match position.determine_close_reason with
  | some reason =>
    let (removed, cache) := acc.cache.remove position_id
    match removed with
    | some (Position.Active active) =>
      let closed := active.close reason pnl_accuracy now
      { acc with
        cache := cache
        wallet_ids_to_remove := acc.wallet_ids_to_remove
          ++ (if cache.contains_by_wallet_id closed.order.wallet_id then
                [closed.order.wallet_id]
              else [])
        events := acc.events ++ [PositionMonitoringEvent.PositionClosed closed] }
    | _ => { acc with kept := acc.kept ++ [position_id] }
  | none =>
    let acc := accumulateWalletTotals acc position
    { acc with kept := acc.kept ++ [position_id] }

/-- One retain step of `PositionsMonitor::update` for one indexed
position id: skip locked ids; drop stale ids; reap closed positions;
drive pending positions through activation; update active positions,
emit margin-call / lock events, cancel top-ups and evaluate the close
reason (`closeStage`).  `keep` is encoded by appending the id to
`acc.kept`; conditional event/lock pushes of the source are translated
as conditional list suffixes.  The source's `expect`/`panic` arms are
modelled as keeping the id unchanged; they are unreachable because
`remove` returns the entry just read. -/
def PositionsMonitor.processId (cancel_pct : ℚ) (cancel_delay : ℕ)
    (pnl_accuracy : Option ℕ) (b : BidAsk) (now : ℕ) (acc : UpdateAcc)
    (position_id : PositionId) : UpdateAcc :=
  if position_id ∈ acc.locked then
    { acc with kept := acc.kept ++ [position_id] }
  else
    match acc.cache.get position_id with
    | none => acc
    | some (Position.Closed _) =>
      let (removed, cache) := acc.cache.remove position_id
      match removed with
      | some (Position.Closed position) =>
        { acc with
          cache := cache
          events := acc.events ++ [PositionMonitoringEvent.PositionClosed position] }
      | _ => { acc with kept := acc.kept ++ [position_id] }
    | some (Position.Pending position) =>
      let position := position.update b now
      let acc := { acc with cache := acc.cache.set position_id (Position.Pending position) }
      if position.is_price_reached then
        if position.can_activate then
          let (removed, cache) := acc.cache.remove position_id
          match removed with
          | some (Position.Pending pending) =>
            match pending.activate now with
            | Except.ok activated =>
              let activated := activated.update b
              { acc with
                kept := acc.kept ++ [position_id]
                cache := cache.add (Position.Active activated)
                events := acc.events
                  ++ [PositionMonitoringEvent.PositionActivated activated] }
            | Except.error _ => { acc with kept := acc.kept ++ [position_id] }
          | _ => { acc with kept := acc.kept ++ [position_id] }
        else
          { acc with
            kept := acc.kept ++ [position_id]
            locked := lockedInsert acc.locked position.id
            events := acc.events
              ++ [PositionMonitoringEvent.PositionLocked
                    (PositionLockReason.ActivationPending position)] }
      else { acc with kept := acc.kept ++ [position_id] }
    | some (Position.Active position) =>
      let position := position.update b
      let acc := { acc with cache := acc.cache.set position_id (Position.Active position) }
      let acc :=
        { acc with
          events := acc.events
            ++ (if position.is_margin_call then
                  [PositionMonitoringEvent.PositionMarginCall position]
                else []) }
      if position.is_top_up then
        closeStage pnl_accuracy now
          { acc with
            locked := lockedInsert acc.locked position.id
            events := acc.events
              ++ [PositionMonitoringEvent.PositionLocked
                    (PositionLockReason.TopUp position)] }
          position_id position
      else
        let (position, canceled_top_ups) :=
          position.try_cancel_top_ups cancel_pct cancel_delay now
        let acc :=
          { acc with cache := acc.cache.set position_id (Position.Active position) }
        closeStage pnl_accuracy now
          { acc with
            locked :=
              if !canceled_top_ups.isEmpty then lockedInsert acc.locked position.id
              else acc.locked
            events := acc.events
              ++ (if !canceled_top_ups.isEmpty then
                    [PositionMonitoringEvent.PositionLocked
                      (PositionLockReason.TopUpsCanceled position canceled_top_ups)]
                  else []) }
          position_id position

/-- `PositionsMonitor::update_wallet_prices`: push the tick into every
wallet indexed under its instrument.  (The source `expect`s each
indexed wallet to exist; a missing wallet is modelled as skipped.) -/
def PositionsMonitor.update_wallet_prices (m : PositionsMonitor)
    (b : BidAsk) : PositionsMonitor :=
  match alistGet m.wallet_ids_by_instruments b.instrument with
  | none => m
  | some wallet_ids =>
    { m with
      wallets_by_ids :=
        wallet_ids.foldl
          (fun ws wallet_id =>
            match alistGet ws wallet_id with
            | some wallet => alistInsert ws wallet_id (wallet.update_price b)
            | none => ws)
          m.wallets_by_ids }

/-- `PositionsMonitor::update_wallet_reserved`. -/
def PositionsMonitor.update_wallet_reserved (m : PositionsMonitor)
    (b : BidAsk) (reserved_by_wallet_ids : List (WalletId × List AssetAmount)) :
    PositionsMonitor :=
  { m with
    wallets_by_ids :=
      reserved_by_wallet_ids.foldl
        (fun ws e =>
          match alistGet ws e.1 with
          | some wallet =>
            alistInsert ws e.1 (wallet.set_top_up_reserved b.instrument e.2)
          | none => ws)
        m.wallets_by_ids }

/-- One step of `update_wallet_pnls`: store the wallet's batch pnl
for the ticked instrument, recompute its loss and emit a wallet-level
margin-call event when the edge fires. -/
def walletPnlStep (b : BidAsk)
    (acc : PositionsMonitor × List PositionMonitoringEvent)
    (e : WalletId × ℚ) : PositionsMonitor × List PositionMonitoringEvent :=
  match alistGet acc.1.wallets_by_ids e.1 with
  | none => acc
  | some wallet =>
    let wallet := (wallet.set_top_up_pnl b.instrument e.2).update_loss
    let m := { acc.1 with wallets_by_ids := alistInsert acc.1.wallets_by_ids e.1 wallet }
    if wallet.is_margin_call then
      (m, acc.2
        ++ [PositionMonitoringEvent.WalletMarginCall
              { loss_percent := wallet.current_loss_percent
                pnl := e.2
                wallet_id := wallet.id
                trader_id := wallet.trader_id }])
    else (m, acc.2)

/-- `PositionsMonitor::update_wallet_pnls`: fold `walletPnlStep` over
the batch pnls. -/
def PositionsMonitor.update_wallet_pnls (m : PositionsMonitor)
    (b : BidAsk) (pnls_by_wallet_ids : List (WalletId × ℚ)) :
    PositionsMonitor × List PositionMonitoringEvent :=
  pnls_by_wallet_ids.foldl (walletPnlStep b) (m, [])

/-- The retain loop of `PositionsMonitor::update`: fold the per-id
step over the ids indexed under the ticked instrument, starting from
the monitor's cache and locked set. -/
def PositionsMonitor.updateRetain (m : PositionsMonitor) (b : BidAsk)
    (now : ℕ) (position_ids : List PositionId) : UpdateAcc :=
  position_ids.foldl
    (PositionsMonitor.processId m.cancel_top_up_price_change_percent
      m.cancel_top_up_delay m.pnl_accuracy b now)
    { kept := []
      cache := m.positions_cache
      locked := m.locked_ids
      events := []
      top_up_pnls := []
      wallet_ids_to_remove := []
      top_up_reserved := [] }

/-- The tail of `PositionsMonitor::update` after the retain loop:
write back the cache, locked set and kept index, then wallet cleanup,
wallet price/reserved/pnl pushes and wallet margin-call events. -/
def PositionsMonitor.updateFinish (m : PositionsMonitor) (b : BidAsk)
    (acc : UpdateAcc) : PositionsMonitor × List PositionMonitoringEvent :=
  let m :=
    { m with
      positions_cache := acc.cache
      locked_ids := acc.locked
      ids_by_instruments :=
        alistInsert m.ids_by_instruments b.instrument acc.kept }
  let m := acc.wallet_ids_to_remove.foldl PositionsMonitor.remove_wallet m
  let m := m.update_wallet_prices b
  let m := m.update_wallet_reserved b acc.top_up_reserved
  let r := m.update_wallet_pnls b acc.top_up_pnls
  (r.1, acc.events ++ r.2)

/-- `PositionsMonitor::update`: the tick-processing loop — retain over
the ids indexed under the ticked instrument, then wallet cleanup,
wallet price/reserved/pnl pushes and wallet margin-call events.  The
`now()` reads of the source are passed explicitly. -/
def PositionsMonitor.update (m : PositionsMonitor) (b : BidAsk) (now : ℕ) :
    PositionsMonitor × List PositionMonitoringEvent :=
  match alistGet m.ids_by_instruments b.instrument with
  | none => (m, [])
  | some position_ids =>
    m.updateFinish b (m.updateRetain b now position_ids)

/-- State of an active position after the first `k` ticks of `bs` have
been applied through `ActivePosition::update` (clamped at the end of
the list; only indices `k ≤ bs.length` are used). -/
def stateAt (p : ActivePosition) : List BidAsk → ℕ → ActivePosition
  | _, 0 => p
  | [], _ + 1 => p
  | b :: bs, k + 1 => stateAt (p.update b) bs k

/-- One wallet tick as performed by `update_wallet_pnls`: store the
batch pnl for the instrument, then recompute the loss percent. -/
def walletTick (instrument : InstrumentSymbol) (w : Wallet) (pnl : ℚ) : Wallet :=
  (w.set_top_up_pnl instrument pnl).update_loss

/-- State of a wallet after the first `k` batch-pnl ticks of `pnls`
have been applied through `walletTick` (clamped; only `k ≤ pnls.length`
is used). -/
def walletStateAt (instrument : InstrumentSymbol) (w : Wallet) :
    List ℚ → ℕ → Wallet
  | _, 0 => w
  | [], _ + 1 => w
  | pnl :: pnls, k + 1 => walletStateAt instrument (walletTick instrument w pnl) pnls k

/-- Consistency of the position cache: every entry is stored under the
id of the position it holds. -/
def cacheConsistent (c : PositionsCache) : Prop :=
  ∀ e ∈ c, Position.get_id e.2 = e.1

/-- Concrete order fixture: Buy, leverage 1, 100 USDT invested, no
risk configs, margin call at 50%. -/
def c2Order : Order :=
  { id := "o-c2", wallet_id := "w", trader_id := "t", instrument := "ATOMUSDT"
    base_asset := "USDT", invest_assets := [⟨"USDT", 100⟩], leverage := 1
    created_date := 0, side := .Buy, take_profit := none, stop_loss := none
    stop_out_percent := 90, margin_call_percent := 50, top_up_enabled := false
    top_up_percent := 10, funding_fee_period := none, desire_price := none }

/-- Concrete active position whose stored `current_loss_percent` (50)
differs from the loss the next tick recomputes (0). -/
def c2Position : ActivePosition :=
  { id := "p-c2", order := c2Order, open_price := 10, open_date := 0
    open_asset_prices := [⟨"USDT", 1⟩], activate_price := 10
    activate_date := 0, activate_asset_prices := [⟨"USDT", 1⟩]
    current_price := 10, current_asset_prices := [⟨"USDT", 1⟩]
    last_update_date := 0, top_ups := [], current_pnl := 0
    current_loss_percent := 50, prev_loss_percent := 0, top_up_locked := false
    total_invest_assets := [⟨"USDT", 100⟩], bonus_invest_assets := [] }

/-- Tick at the position's activation price (recomputed pnl is 0). -/
def c2BidAsk : BidAsk :=
  { instrument := "ATOMUSDT", datetime := 0, bid := 10, ask := 10 }

/-- Concrete pending position that was funded through
`add_invest_assets` (non-empty `total_invest_assets`) but never
activated. -/
def c3Pending : PendingPosition :=
  { id := "p-c3", order := { c2Order with id := "o-c3", desire_price := some 26000 }
    open_price := 25900, open_date := 0, open_asset_prices := [⟨"USDT", 1⟩]
    current_price := 25900, current_asset_prices := [⟨"USDT", 1⟩]
    last_update_date := 0, total_invest_assets := [⟨"USDT", 100⟩] }

/-- Concrete order for the lock-then-close scenario: top-up enabled
(so the position locks for top-up at 10% loss) and a stop-loss that
triggers on the same tick. -/
def c4Order : Order :=
  { id := "o-c4", wallet_id := "w", trader_id := "t", instrument := "ATOMUSDT"
    base_asset := "USDT", invest_assets := [⟨"USDT", 100⟩], leverage := 1
    created_date := 0, side := .Buy, take_profit := none
    stop_loss := some ⟨0, .AssetAmount⟩
    stop_out_percent := 90, margin_call_percent := 50, top_up_enabled := true
    top_up_percent := 10, funding_fee_period := none, desire_price := none }

/-- Concrete active position for the lock-then-close scenario. -/
def c4Position : ActivePosition :=
  { id := "p-c4", order := c4Order, open_price := 10, open_date := 0
    open_asset_prices := [⟨"USDT", 1⟩], activate_price := 10
    activate_date := 0, activate_asset_prices := [⟨"USDT", 1⟩]
    current_price := 10, current_asset_prices := [⟨"USDT", 1⟩]
    last_update_date := 0, top_ups := [], current_pnl := 0
    current_loss_percent := 0, prev_loss_percent := 0, top_up_locked := false
    total_invest_assets := [⟨"USDT", 100⟩], bonus_invest_assets := [] }

/-- Monitor holding only the lock-then-close position, indexed under
its instrument, with nothing locked. -/
def c4Monitor : PositionsMonitor :=
  { positions_cache := [("p-c4", Position.Active c4Position)]
    ids_by_instruments := [("ATOMUSDT", ["p-c4"])]
    cancel_top_up_delay := 0
    cancel_top_up_price_change_percent := 1
    locked_ids := []
    pnl_accuracy := none
    wallets_by_ids := []
    wallet_ids_by_instruments := [] }

/-- Tick that moves the price from 10 to 5 (50% loss on the
fixtures above). -/
def c4BidAsk : BidAsk :=
  { instrument := "ATOMUSDT", datetime := 0, bid := 5, ask := 5 }

/-- Wallet fixture with a known BTC price of 2 and no reserved
collateral yet. -/
def c5Wallet : Wallet :=
  { Wallet.new "w-c5" "t" "USDT" 50 with prices_by_assets := [("BTC", 2)] }

/-- The wallet after reserving 1 BTC for instrument "I" once. -/
def c5Wallet1 : Wallet := c5Wallet.set_top_up_reserved "I" [⟨"BTC", 1⟩]

/-- The wallet after reserving the identical amounts a second time. -/
def c5Wallet2 : Wallet := c5Wallet1.set_top_up_reserved "I" [⟨"BTC", 1⟩]

/-- Wallet fixture holding one unlocked balance of 10 BTC priced at 1,
counted in the unlocked total. -/
def c6Wallet : Wallet :=
  { Wallet.new "w-c6" "t" "USDT" 50 with
    prices_by_assets := [("BTC", 1)]
    balances_by_instruments := [("BTCUSDT", ⟨"b1", "BTC", 10, false⟩)]
    total_unlocked_balance := 10 }

/-- The same wallet with the balance locked and therefore NOT counted
in the unlocked total (which is 0). -/
def c6WalletLocked : Wallet :=
  { Wallet.new "w-c6l" "t" "USDT" 50 with
    prices_by_assets := [("BTC", 1)]
    balances_by_instruments := [("BTCUSDT", ⟨"b1", "BTC", 10, true⟩)]
    total_unlocked_balance := 0 }

/-- Tick doubling the BTC price from 1 to 2. -/
def c6BidAsk : BidAsk :=
  { instrument := "BTCUSDT", datetime := 0, bid := 2, ask := 2 }

/-- Active position fixture for the margin-call witness (top-up
disabled, margin call at 50%). -/
def c7Position : ActivePosition := c2Position.update c2BidAsk

/-- Two identical ticks halving the price (loss jumps to 50% and stays
there). -/
def c7Ticks : List BidAsk := [c4BidAsk, c4BidAsk]

/-- Wallet fixture for the wallet-level margin-call witness: balance
100, margin call at 50%. -/
def c7Wallet : Wallet :=
  { Wallet.new "w-c7" "t" "USDT" 50 with total_unlocked_balance := 100 }

/-- Batch pnls driving the wallet loss to 60%, then 10%, then 60%
again (the dip lets the margin call fire twice legitimately). -/
def c7Pnls : List ℚ := [-60, -10, -60]

/-- Monitor fixture for the locked-skip witness: one active position,
indexed, and locked. -/
def c9Monitor : PositionsMonitor :=
  { c4Monitor with
    positions_cache := [("p-c4", Position.Active c4Position)]
    locked_ids := ["p-c4"] }

/-- Pending position fixture for the partial-merge witness: only asset
"AAA" has an open-price snapshot. -/
def c10Pending : PendingPosition :=
  { id := "p-c10", order := { c2Order with id := "o-c10", desire_price := some 26000 }
    open_price := 25900, open_date := 0, open_asset_prices := [⟨"AAA", 1⟩]
    current_price := 25900, current_asset_prices := [⟨"AAA", 1⟩]
    last_update_date := 0, total_invest_assets := [] }

/-- Claim C1: the claim states that the `AssetAmount` arms of
`TakeProfitConfig::is_triggered` / `StopLossConfig::is_triggered`
follow the spec's rule (take-profit: pnl ≥ value; stop-loss: pnl
negative and |pnl| ≥ value, so `AssetAmount(100)` stop-loss triggers
exactly at pnl ≤ −100).  The code compares `value >= pnl` in both
arms: evaluated at the failing inputs, a stop-loss of 100 triggers at
pnl = 0 (the spec's rule does not), and a take-profit of 100 does not
trigger at pnl = 200 (the spec's rule does). -/
theorem assetAmount_trigger_arms_diverge_from_spec_rule :
    StopLossConfig.is_triggered ⟨100, .AssetAmount⟩ 0 10 .Buy = true
    ∧ specStopLossAssetAmountTriggered 100 0 = false
    ∧ TakeProfitConfig.is_triggered ⟨100, .AssetAmount⟩ 200 10 .Buy = false
    ∧ specTakeProfitAssetAmountTriggered 100 200 = true
    ∧ TakeProfitConfig.is_triggered ⟨100, .AssetAmount⟩ 0 10 .Buy = true
    ∧ specTakeProfitAssetAmountTriggered 100 0 = false := by
  decide

unseal Rat.mul Rat.add Rat.inv Rat.sub in
/-- Claim C2 counterexample: updating `c2Position` twice with the
identical tick does not reproduce the state after one update — the
second call moves `prev_loss_percent` from the stale 50 to the freshly
computed 0. -/
theorem update_twice_on_c2Position_differs :
    ((c2Position.update c2BidAsk).update c2BidAsk).prev_loss_percent = 0
    ∧ (c2Position.update c2BidAsk).prev_loss_percent = 50
    ∧ (c2Position.update c2BidAsk).update c2BidAsk ≠ c2Position.update c2BidAsk := by
  decide

/-- Claim C3: `ClosedPosition::get_status` keys on
`total_invest_assets` being empty, not on `activate_date`; a pending
position funded through `add_invest_assets` but closed before ever
activating therefore reports `Filled` although it was never activated,
where the claim (and §4.2 of the spec: pending close has "Canceled
status") requires `Canceled`. -/
theorem funded_never_activated_close_reports_filled :
    (c3Pending.close .ClientCommand 5).get_status = PositionStatus.Filled
    ∧ (c3Pending.close .ClientCommand 5).activate_date = none
    ∧ c3Pending.total_invest_assets ≠ [] := by
  decide

unseal Rat.mul Rat.add Rat.inv Rat.sub in
/-- Claim C5: after replacing instrument "I"'s reserved value,
`total_top_up_reserved_balance` is 0 while the per-instrument map still
holds 2 — the replacement branch of `set_top_up_reserved` subtracts the
old value from the wallet total but never adds the new one, so the
total no longer equals the sum of the per-instrument values. -/
theorem set_top_up_reserved_replacement_breaks_wallet_total :
    c5Wallet1.total_top_up_reserved_balance = 2
    ∧ c5Wallet2.total_top_up_reserved_balance = 0
    ∧ alistGet c5Wallet2.top_up_reserved_balance_by_instruments "I" = some 2 := by
  decide

unseal Rat.mul Rat.add Rat.inv Rat.sub in
/-- Claim C6: `Wallet::update_price` rebases
`total_unlocked_balance` only when the balance `is_locked` — the
opposite of the claim.  Evaluated at the failing input: for an
unlocked balance of 10 BTC repriced from 1 to 2 the total stays 10
(the claim requires 10 + 10×(2−1) = 20) although the stored price is
updated; for a locked balance (not counted in the total at all) the
code moves the total from 0 to 10. -/
theorem update_price_rebases_only_locked_balances :
    (c6Wallet.update_price c6BidAsk).total_unlocked_balance = 10
    ∧ alistGet (c6Wallet.update_price c6BidAsk).prices_by_assets "BTC" = some 2
    ∧ (c6WalletLocked.update_price c6BidAsk).total_unlocked_balance = 10
    ∧ c6WalletLocked.total_unlocked_balance = 0 := by
  decide

unseal Rat.mul Rat.add Rat.inv Rat.sub in
/-- Claim C4 counterexample: one tick on `c4Monitor` locks position
"p-c4" for top-up and then closes and removes it in the same `update`
call (its stop-loss triggers while stop-out is suppressed by top-up
eligibility); afterwards the locked-id set still contains "p-c4" but
the positions cache does not — the locked set is not consistent with
the cache. -/
theorem update_leaves_stale_locked_id_on_c4Monitor :
    "p-c4" ∈ (c4Monitor.update c4BidAsk 0).1.locked_ids
    ∧ (c4Monitor.update c4BidAsk 0).1.positions_cache.get "p-c4" = none := by
  decide

/-- Characterization of `is_stop_out` used by the close-reason
claim: it holds exactly when the loss is at or above the stop-out
threshold and the position is not currently eligible for top-up. -/
theorem is_stop_out_iff (p : ActivePosition) :
    p.is_stop_out = true
      ↔ p.current_loss_percent ≥ p.order.stop_out_percent ∧ p.is_top_up = false := by
  unfold ActivePosition.is_stop_out
  by_cases h : p.is_top_up <;> simp [h]

/-- Claim C8: `determine_close_reason` returns StopOut exactly when
the loss is at or above the stop-out threshold and the position is not
top-up eligible (top-up eligibility always suppresses stop-out);
otherwise StopLoss when the stop-loss triggers; otherwise TakeProfit
when the take-profit triggers; otherwise none — the priority order
StopOut > StopLoss > TakeProfit > none. -/
theorem determine_close_reason_priority (p : ActivePosition) :
    (p.determine_close_reason = some ClosePositionReason.StopOut
      ↔ p.current_loss_percent ≥ p.order.stop_out_percent ∧ p.is_top_up = false)
    ∧ (p.determine_close_reason = some ClosePositionReason.StopLoss
      ↔ ¬(p.current_loss_percent ≥ p.order.stop_out_percent ∧ p.is_top_up = false)
        ∧ p.is_stop_loss = true)
    ∧ (p.determine_close_reason = some ClosePositionReason.TakeProfit
      ↔ ¬(p.current_loss_percent ≥ p.order.stop_out_percent ∧ p.is_top_up = false)
        ∧ p.is_stop_loss = false ∧ p.is_take_profit = true)
    ∧ (p.determine_close_reason = none
      ↔ ¬(p.current_loss_percent ≥ p.order.stop_out_percent ∧ p.is_top_up = false)
        ∧ p.is_stop_loss = false ∧ p.is_take_profit = false) := by
  have hso := is_stop_out_iff p
  unfold ActivePosition.determine_close_reason
  by_cases h1 : p.is_stop_out
    <;> by_cases h2 : p.is_stop_loss
    <;> by_cases h3 : p.is_take_profit
    <;> simp_all

/-- `ActivePosition::update` never changes the embedded order. -/
theorem update_keeps_order (p : ActivePosition) (b : BidAsk) :
    (p.update b).order = p.order := by
  unfold ActivePosition.update ActivePosition.update_pnl
    ActivePosition.try_update_asset_price ActivePosition.try_update_instrument_price
  by_cases h : p.order.instrument = b.instrument <;> simp [h]

/-- `ActivePosition::update` snapshots the previous tick's loss
percent: after an update, `prev_loss_percent` is the
`current_loss_percent` the position had before the update. -/
theorem update_snapshots_prev_loss (p : ActivePosition) (b : BidAsk) :
    (p.update b).prev_loss_percent = p.current_loss_percent := by
  unfold ActivePosition.update ActivePosition.update_pnl
    ActivePosition.try_update_asset_price ActivePosition.try_update_instrument_price
  by_cases h : p.order.instrument = b.instrument <;> simp [h]

/-- The order is invariant along any run of updates. -/
theorem stateAt_keeps_order (bs : List BidAsk) (k : ℕ) (p : ActivePosition) :
    (stateAt p bs k).order = p.order := by
  induction bs generalizing p k with
  | nil => cases k <;> rfl
  | cons b bs ih =>
    cases k with
    | zero => rfl
    | succ k => rw [stateAt, ih, update_keeps_order]

/-- Along a run of updates, each state's `prev_loss_percent` is the
preceding state's `current_loss_percent`. -/
theorem stateAt_prev_loss (bs : List BidAsk) (k : ℕ) (p : ActivePosition)
    (h : k < bs.length) :
    (stateAt p bs (k + 1)).prev_loss_percent
      = (stateAt p bs k).current_loss_percent := by
  induction bs generalizing p k with
  | nil => simp at h
  | cons b bs ih =>
    cases k with
    | zero => simpa [stateAt] using update_snapshots_prev_loss p b
    | succ k =>
      rw [stateAt, stateAt]
      exact ih k (p.update b) (by simpa using h)

/-- `walletTick` snapshots the previous loss percent. -/
theorem walletTick_snapshots_prev_loss (instrument : InstrumentSymbol)
    (w : Wallet) (pnl : ℚ) :
    (walletTick instrument w pnl).prev_loss_percent = w.current_loss_percent := by
  rfl

/-- `walletTick` never changes the margin-call threshold. -/
theorem walletTick_keeps_threshold (instrument : InstrumentSymbol)
    (w : Wallet) (pnl : ℚ) :
    (walletTick instrument w pnl).margin_call_percent = w.margin_call_percent := by
  rfl

/-- The margin-call threshold is invariant along a run of wallet
ticks. -/
theorem walletStateAt_keeps_threshold (instrument : InstrumentSymbol)
    (pnls : List ℚ) (k : ℕ) (w : Wallet) :
    (walletStateAt instrument w pnls k).margin_call_percent
      = w.margin_call_percent := by
  induction pnls generalizing w k with
  | nil => cases k <;> rfl
  | cons pnl pnls ih =>
    cases k with
    | zero => rfl
    | succ k => rw [walletStateAt, ih, walletTick_keeps_threshold]

/-- Along a run of wallet ticks, each state's `prev_loss_percent` is
the preceding state's `current_loss_percent`. -/
theorem walletStateAt_prev_loss (instrument : InstrumentSymbol)
    (pnls : List ℚ) (k : ℕ) (w : Wallet) (h : k < pnls.length) :
    (walletStateAt instrument w pnls (k + 1)).prev_loss_percent
      = (walletStateAt instrument w pnls k).current_loss_percent := by
  induction pnls generalizing w k with
  | nil => simp at h
  | cons pnl pnls ih =>
    cases k with
    | zero => simpa [walletStateAt] using walletTick_snapshots_prev_loss instrument w pnl
    | succ k =>
      rw [walletStateAt, walletStateAt]
      exact ih k (walletTick instrument w pnl) (by simpa using h)

/-- Claim C7: margin-call signals are edge-triggered at both levels.
(1) A position's `is_margin_call` holds exactly when top-up is not
enabled, the loss is at or above the margin-call threshold and the
previous loss was below it; (2) likewise a wallet's after
`update_loss`; (3) and (4): along any run of ticks (position level /
wallet level), once the signal has fired, as long as the loss percent
stays at or above the threshold the signal does not fire again — it
fires at most once per upward crossing. -/
theorem margin_call_edge_triggered_both_levels :
    (∀ p : ActivePosition,
      p.is_margin_call = true
        ↔ p.order.top_up_enabled = false
          ∧ p.current_loss_percent ≥ p.order.margin_call_percent
          ∧ p.prev_loss_percent < p.order.margin_call_percent)
    ∧ (∀ w : Wallet,
      w.update_loss.is_margin_call = true
        ↔ w.update_loss.current_loss_percent ≥ w.margin_call_percent
          ∧ w.current_loss_percent < w.margin_call_percent)
    ∧ (∀ (p : ActivePosition) (bs : List BidAsk) (i j : ℕ), i < j → j ≤ bs.length →
      (stateAt p bs i).is_margin_call = true →
      (∀ k, i ≤ k → k < j →
        (stateAt p bs k).current_loss_percent ≥ p.order.margin_call_percent) →
      (stateAt p bs j).is_margin_call = false)
    ∧ (∀ (instrument : InstrumentSymbol) (w : Wallet) (pnls : List ℚ) (i j : ℕ),
      i < j → j ≤ pnls.length →
      (walletStateAt instrument w pnls i).is_margin_call = true →
      (∀ k, i ≤ k → k < j →
        (walletStateAt instrument w pnls k).current_loss_percent
          ≥ w.margin_call_percent) →
      (walletStateAt instrument w pnls j).is_margin_call = false) := by
  refine ⟨?_, ?_, ?_, ?_⟩
  · intro p
    cases henb : p.order.top_up_enabled with
    | true => simp [ActivePosition.is_margin_call, henb]
    | false => simp [ActivePosition.is_margin_call, henb]
  · intro w
    simp only [Wallet.is_margin_call, decide_eq_true_eq]
    exact Iff.rfl
  · intro p bs i j hij hj _hfire habove
    obtain ⟨j', rfl⟩ : ∃ j', j = j' + 1 := ⟨j - 1, by omega⟩
    have hprev := stateAt_prev_loss bs j' p (by omega)
    have hcur := habove j' (by omega) (by omega)
    cases henb : (stateAt p bs (j' + 1)).order.top_up_enabled with
    | true => simp [ActivePosition.is_margin_call, henb]
    | false =>
      rw [stateAt_keeps_order] at henb
      simp only [ActivePosition.is_margin_call, henb, Bool.false_eq_true, if_false,
        decide_eq_false_iff_not, stateAt_keeps_order, not_and, not_lt]
      intro _
      rw [hprev]
      exact hcur
  · intro instrument w pnls i j hij hj _hfire habove
    obtain ⟨j', rfl⟩ : ∃ j', j = j' + 1 := ⟨j - 1, by omega⟩
    have hprev := walletStateAt_prev_loss instrument pnls j' w (by omega)
    have hcur := habove j' (by omega) (by omega)
    simp only [Wallet.is_margin_call, decide_eq_false_iff_not,
      walletStateAt_keeps_threshold, not_and, not_lt]
    intro _
    rw [hprev]
    exact hcur

unseal Rat.mul Rat.add Rat.inv Rat.sub in
/-- Claim C7 witness: concrete runs at both levels.  The position run
fires at tick 0 (stale loss 50 crossing the 50% threshold) and, with
the loss staying at 50%, tick 1 does not re-fire; the wallet run fires
after the first batch pnl (loss 60%) and does not re-fire at the next
tick. -/
theorem margin_call_edge_triggered_witness :
    ((0 : ℕ) < 1 ∧ (1 : ℕ) ≤ c7Ticks.length
      ∧ (stateAt c2Position c7Ticks 0).is_margin_call = true
      ∧ (stateAt c2Position c7Ticks 1).is_margin_call = false)
    ∧ ((1 : ℕ) < 2 ∧ (2 : ℕ) ≤ c7Pnls.length
      ∧ (walletStateAt "I" c7Wallet c7Pnls 1).is_margin_call = true
      ∧ (walletStateAt "I" c7Wallet c7Pnls 2).is_margin_call = false) := by
  refine ⟨⟨by decide, by decide, by decide, ?_⟩, ⟨by decide, by decide, by decide, ?_⟩⟩
  · exact margin_call_edge_triggered_both_levels.2.2.1 c2Position c7Ticks 0 1
      (by decide) (by decide) (by decide)
      (fun k hk1 hk2 => by
        have hk0 : k = 0 := by omega
        subst hk0
        decide)
  · exact margin_call_edge_triggered_both_levels.2.2.2 "I" c7Wallet c7Pnls 1 2
      (by decide) (by decide) (by decide)
      (fun k hk1 hk2 => by
        have hk1' : k = 1 := by omega
        subst hk1'
        decide)

/-- Claim C10: `PendingPosition::add_invest_assets` is not atomic on
failure.  When the supplied amounts are `pre ++ item :: rest` in
iteration order (for a `SortedVec` argument this is ascending symbol
order), every asset of `pre` has an open-price snapshot and `item`'s
asset does not, the call returns the error naming `item`'s asset, and
the resulting position has every amount of `pre` already merged
additively into `total_invest_assets` — the partial additions are not
rolled back, and `rest` is not processed. -/
theorem add_invest_assets_error_keeps_partial_merge
    (p : PendingPosition) (pre : List AssetAmount) (item : AssetAmount)
    (rest : List AssetAmount)
    (hpre : ∀ x ∈ pre,
      (p.open_asset_prices.find? (fun e => e.symbol = x.symbol)).isSome)
    (hitem : p.open_asset_prices.find? (fun e => e.symbol = item.symbol) = none) :
    p.add_invest_assets (pre ++ item :: rest)
      = ({ p with total_invest_assets := pre.foldl addAmount p.total_invest_assets },
          some ("Can't invest '" ++ item.symbol ++ "': not found open price")) := by
  induction pre generalizing p with
  | nil =>
    simp only [List.nil_append, List.foldl_nil, PendingPosition.add_invest_assets,
      hitem, Option.isNone_none, if_pos]
  | cons a pre ih =>
    have ha : (p.open_asset_prices.find? (fun e => e.symbol = a.symbol)).isSome :=
      hpre a (List.mem_cons_self a pre)
    have hcond :
        (p.open_asset_prices.find? (fun e => e.symbol = a.symbol)).isNone = false := by
      cases hfind : p.open_asset_prices.find? (fun e => e.symbol = a.symbol) with
      | none => rw [hfind] at ha; simp at ha
      | some v => rfl
    rw [List.cons_append, PendingPosition.add_invest_assets, hcond]
    simp only [Bool.false_eq_true, if_false, List.foldl_cons]
    exact ih { p with total_invest_assets := addAmount p.total_invest_assets a }
      (fun x hx => hpre x (List.mem_cons_of_mem a hx)) hitem

unseal Rat.mul Rat.add Rat.inv Rat.sub in
/-- Claim C10 witness: on `c10Pending` (only "AAA" has an open-price
snapshot), supplying amounts for "AAA" then "BBB" yields the error
naming "BBB" while the "AAA" amount is already merged and kept. -/
theorem add_invest_assets_error_keeps_partial_merge_witness :
    ((∀ x ∈ [(⟨"AAA", 1⟩ : AssetAmount)],
        (c10Pending.open_asset_prices.find? (fun e => e.symbol = x.symbol)).isSome)
      ∧ c10Pending.open_asset_prices.find? (fun e => e.symbol = "BBB") = none)
    ∧ c10Pending.add_invest_assets [⟨"AAA", 1⟩, ⟨"BBB", 2⟩]
      = ({ c10Pending with total_invest_assets := [⟨"AAA", 1⟩] },
          some "Can't invest 'BBB': not found open price") := by
  refine ⟨⟨by decide, by decide⟩, ?_⟩
  have h := add_invest_assets_error_keeps_partial_merge c10Pending
    [⟨"AAA", 1⟩] ⟨"BBB", 2⟩ [] (by decide) (by decide)
  simpa using h

/-- Upserting the same symbol twice keeps only the last price. -/
theorem setPrice_overwrite (m : List AssetPrice) (s : AssetSymbol) (p q : ℚ) :
    setPrice (setPrice m s p) s q = setPrice m s q := by
  induction m with
  | nil => simp [setPrice]
  | cons x xs ih =>
    by_cases h1 : x.symbol = s
    · simp [setPrice, h1]
    · by_cases h2 : symLt s x.symbol
      · simp [setPrice, h1, h2]
      · simp [setPrice, h1, h2, ih]

/-- Two invested assets whose synthetic instruments both match the
ticked instrument have the same symbol, so their update steps are the
same function. -/
theorem updateStep_guarded_eq (b : BidAsk) (base : AssetSymbol)
    (x y : AssetAmount)
    (hx : BidAsk.get_instrument_symbol x.symbol base = b.instrument)
    (hy : BidAsk.get_instrument_symbol y.symbol base = b.instrument)
    (m : List AssetPrice) :
    updateAssetPricesStep b base m x = updateAssetPricesStep b base m y := by
  have happ : x.symbol ++ base = y.symbol ++ base := by
    unfold BidAsk.get_instrument_symbol at hx hy
    rw [hx, hy]
  have hdata : x.symbol.data ++ base.data = y.symbol.data ++ base.data := by
    simpa using congrArg String.data happ
  have hsym : x.symbol = y.symbol := String.ext (List.append_cancel_right hdata)
  simp [updateAssetPricesStep, hsym]

/-- A second application of the same asset's update step is absorbed. -/
theorem updateStep_absorb (b : BidAsk) (base : AssetSymbol) (x : AssetAmount)
    (m : List AssetPrice) :
    updateAssetPricesStep b base (updateAssetPricesStep b base m x) x
      = updateAssetPricesStep b base m x := by
  unfold updateAssetPricesStep
  by_cases hx : BidAsk.get_instrument_symbol x.symbol base = b.instrument
  · simp [hx, setPrice_overwrite]
  · simp [hx]

/-- After a fold that began with asset `x`'s update step, a further
application of `x`'s step is absorbed. -/
theorem updateStep_fold_absorb (b : BidAsk) (base : AssetSymbol)
    (l : List AssetAmount) (x : AssetAmount) (m : List AssetPrice)
    (hx : BidAsk.get_instrument_symbol x.symbol base = b.instrument) :
    updateAssetPricesStep b base
        (l.foldl (updateAssetPricesStep b base) (updateAssetPricesStep b base m x)) x
      = l.foldl (updateAssetPricesStep b base) (updateAssetPricesStep b base m x) := by
  induction l generalizing m with
  | nil => exact updateStep_absorb b base x m
  | cons y l ih =>
    rw [List.foldl_cons]
    by_cases hy : BidAsk.get_instrument_symbol y.symbol base = b.instrument
    · rw [updateStep_guarded_eq b base y x hy hx, updateStep_absorb]
      exact ih m
    · rw [show updateAssetPricesStep b base (updateAssetPricesStep b base m x) y
            = updateAssetPricesStep b base m x by
          unfold updateAssetPricesStep; simp [hy]]
      exact ih m

/-- The asset-price refresh fold of `try_update_asset_price` is
idempotent: folding the same tick over the same invested assets a
second time does not change the price list. -/
theorem updateStep_fold_idem (b : BidAsk) (base : AssetSymbol)
    (l : List AssetAmount) (m : List AssetPrice) :
    l.foldl (updateAssetPricesStep b base)
        (l.foldl (updateAssetPricesStep b base) m)
      = l.foldl (updateAssetPricesStep b base) m := by
  induction l generalizing m with
  | nil => rfl
  | cons x l ih =>
    rw [List.foldl_cons, List.foldl_cons]
    by_cases hx : BidAsk.get_instrument_symbol x.symbol base = b.instrument
    · rw [updateStep_fold_absorb b base l x m hx]
      exact ih (updateAssetPricesStep b base m x)
    · rw [show updateAssetPricesStep b base
            (l.foldl (updateAssetPricesStep b base) (updateAssetPricesStep b base m x)) x
          = l.foldl (updateAssetPricesStep b base) (updateAssetPricesStep b base m x) by
        unfold updateAssetPricesStep; simp [hx]]
      exact ih (updateAssetPricesStep b base m x)

/-- Applying the instrument-price refresh again right after an
`update` with the same tick changes nothing: the current price is
already the tick's close price (or the tick is for another
instrument). -/
theorem try_update_instrument_price_stable (p : ActivePosition) (b : BidAsk) :
    (p.update b).try_update_instrument_price b = p.update b := by
  unfold ActivePosition.try_update_instrument_price
  have horder : (p.update b).order = p.order := update_keeps_order p b
  by_cases h : p.order.instrument = b.instrument
  · rw [horder, if_pos h]
    have hcp : (p.update b).current_price = b.get_close_price p.order.side := by
      unfold ActivePosition.update ActivePosition.update_pnl
        ActivePosition.try_update_asset_price ActivePosition.try_update_instrument_price
      simp [h]
    rw [← hcp, ← horder]
  · rw [horder, if_neg h]

/-- Applying the asset-price refresh again right after an `update`
with the same tick changes nothing: the price list is already the
result of the (idempotent) refresh fold. -/
theorem try_update_asset_price_stable (p : ActivePosition) (b : BidAsk) :
    (p.update b).try_update_asset_price b = p.update b := by
  unfold ActivePosition.try_update_asset_price
  have horder : (p.update b).order = p.order := update_keeps_order p b
  have hti : (p.update b).total_invest_assets = p.total_invest_assets := by
    unfold ActivePosition.update ActivePosition.update_pnl
      ActivePosition.try_update_asset_price ActivePosition.try_update_instrument_price
    by_cases h : p.order.instrument = b.instrument <;> simp [h]
  have hcaps : (p.update b).current_asset_prices
      = p.total_invest_assets.foldl (updateAssetPricesStep b p.order.base_asset)
          p.current_asset_prices := by
    unfold ActivePosition.update ActivePosition.update_pnl
      ActivePosition.try_update_asset_price ActivePosition.try_update_instrument_price
    by_cases h : p.order.instrument = b.instrument <;> simp [h]
  rw [horder, hti, hcaps, updateStep_fold_idem, ← hcaps, ← horder, ← hti]

/-- Two successive pnl recomputations differ only in the
`prev_loss_percent` snapshot. -/
theorem update_pnl_twice (s : ActivePosition) :
    s.update_pnl.update_pnl
      = { s.update_pnl with
          prev_loss_percent := s.update_pnl.current_loss_percent } := by
  rfl

/-- Claim C2 (amended): updating twice with the identical tick
reproduces the once-updated state in every field except
`prev_loss_percent`, which the second call moves to the (unchanged)
`current_loss_percent` — in particular `current_pnl` and
`current_loss_percent` are not double-counted. -/
theorem update_twice_eq_update_except_prev_loss
    (p : ActivePosition) (b : BidAsk) :
    (p.update b).update b
      = { p.update b with
          prev_loss_percent := (p.update b).current_loss_percent } := by
  conv_lhs => rw [ActivePosition.update]
  rw [try_update_instrument_price_stable, try_update_asset_price_stable]
  exact update_pnl_twice ((p.try_update_instrument_price b).try_update_asset_price b)

/-- Looking up the key replaced in place finds the new value. -/
theorem alistGet_map_replace_self {α : Type} (l : List (String × α))
    (k : String) (v : α) (h : l.any (fun e => e.1 = k) = true) :
    alistGet (l.map (fun e => if e.1 = k then (k, v) else e)) k = some v := by
  induction l with
  | nil => simp at h
  | cons x l ih =>
    by_cases hx : x.1 = k
    · simp [alistGet, hx]
    · have h' : l.any (fun e => e.1 = k) = true := by simpa [hx] using h
      simpa [alistGet, hx] using ih h'

/-- Unfolding of an association-list lookup over a cons cell. -/
theorem alistGet_cons {α : Type} (y : String × α) (l : List (String × α))
    (k' : String) :
    alistGet (y :: l) k' = if y.1 = k' then some y.2 else alistGet l k' := by
  unfold alistGet
  by_cases h : y.1 = k'
  · rw [List.find?_cons_of_pos _ (by simpa using h), if_pos h]
    rfl
  · rw [List.find?_cons_of_neg _ (by simpa using h), if_neg h]

/-- Replacing key `k` in place leaves lookups of other keys alone. -/
theorem alistGet_map_replace_ne {α : Type} (l : List (String × α))
    (k : String) (v : α) (k' : String) (hne : k' ≠ k) :
    alistGet (l.map (fun e => if e.1 = k then (k, v) else e)) k' = alistGet l k' := by
  induction l with
  | nil => rfl
  | cons x l ih =>
    simp only [List.map_cons]
    rw [alistGet_cons, alistGet_cons]
    by_cases hx : x.1 = k
    · rw [if_pos hx]
      have h1 : ¬ (k, v).1 = k' := by simpa using Ne.symm hne
      have h2 : ¬ x.1 = k' := by rw [hx]; exact fun hh => hne hh.symm
      rw [if_neg h1, if_neg h2]
      exact ih
    · rw [if_neg hx]
      by_cases hx' : x.1 = k'
      · rw [if_pos hx', if_pos hx']
      · rw [if_neg hx', if_neg hx']
        exact ih

/-- When no entry has key `k`, the lookup is `none`. -/
theorem alistGet_eq_none_of_not_any {α : Type} (l : List (String × α))
    (k : String) (h : l.any (fun e => e.1 = k) = false) :
    alistGet l k = none := by
  induction l with
  | nil => rfl
  | cons x l ih =>
    by_cases hx : x.1 = k
    · simp [hx] at h
    · have h' : l.any (fun e => e.1 = k) = false := by simpa [hx] using h
      simpa [alistGet, hx] using ih h'

/-- `alistInsert` then lookup of the same key yields the new value. -/
theorem alistGet_insert_self {α : Type} (l : List (String × α))
    (k : String) (v : α) :
    alistGet (alistInsert l k v) k = some v := by
  unfold alistInsert
  by_cases h : l.any (fun e => e.1 = k)
  · rw [if_pos h]
    exact alistGet_map_replace_self l k v h
  · rw [if_neg h]
    induction l with
    | nil => simp [alistGet]
    | cons x l ih =>
      have hx : ¬ x.1 = k := by
        intro hx
        exact h (by simp [List.any_cons, hx])
      have h' : ¬ l.any (fun e => e.1 = k) = true := by
        intro h'
        exact h (by simp [List.any_cons, h'])
      simpa [alistGet, hx] using ih h'

/-- `alistInsert` leaves lookups of other keys alone. -/
theorem alistGet_insert_ne {α : Type} (l : List (String × α))
    (k : String) (v : α) (k' : String) (hne : k' ≠ k) :
    alistGet (alistInsert l k v) k' = alistGet l k' := by
  unfold alistInsert
  by_cases h : l.any (fun e => e.1 = k)
  · rw [if_pos h]
    exact alistGet_map_replace_ne l k v k' hne
  · rw [if_neg h]
    induction l with
    | nil =>
      rw [List.nil_append, alistGet_cons]
      rw [if_neg (by simpa using Ne.symm hne)]
    | cons x l ih =>
      have h' : ¬ l.any (fun e => e.1 = k) = true := by
        intro h'
        exact h (by simp [List.any_cons, h'])
      rw [List.cons_append, alistGet_cons, alistGet_cons]
      by_cases hx' : x.1 = k'
      · rw [if_pos hx', if_pos hx']
      · rw [if_neg hx', if_neg hx']
        exact ih h'

/-- `alistRemove` leaves lookups of other keys alone. -/
theorem alistGet_remove_ne {α : Type} (l : List (String × α))
    (k k' : String) (hne : k' ≠ k) :
    alistGet (alistRemove l k) k' = alistGet l k' := by
  induction l with
  | nil => rfl
  | cons x l ih =>
    unfold alistRemove
    rw [List.filter_cons]
    by_cases hx : x.1 = k
    · rw [if_neg (by simpa using hx)]
      have h2 : ¬ x.1 = k' := by rw [hx]; exact fun hh => hne hh.symm
      rw [alistGet_cons, if_neg h2]
      exact ih
    · rw [if_pos (by simpa using hx)]
      rw [alistGet_cons, alistGet_cons]
      by_cases hx' : x.1 = k'
      · rw [if_pos hx', if_pos hx']
      · rw [if_neg hx', if_neg hx']
        exact ih

/-- Entries of `alistInsert l k v` are entries of `l` or the pair
`(k, v)`. -/
theorem mem_alistInsert {α : Type} (l : List (String × α)) (k : String)
    (v : α) (e : String × α) (he : e ∈ alistInsert l k v) :
    e ∈ l ∨ e = (k, v) := by
  unfold alistInsert at he
  by_cases h : l.any (fun e => e.1 = k)
  · rw [if_pos h] at he
    obtain ⟨x, hx, hxe⟩ := List.mem_map.1 he
    by_cases hxk : x.1 = k
    · right
      rw [← hxe]
      simp [hxk]
    · left
      rw [← hxe]
      simpa [hxk] using hx
  · rw [if_neg h] at he
    rcases List.mem_append.1 he with h1 | h2
    · exact Or.inl h1
    · exact Or.inr (by simpa using h2)

/-- A successful lookup exhibits a list entry with that key. -/
theorem mem_of_alistGet_eq_some {α : Type} (l : List (String × α))
    (k : String) (v : α) (h : alistGet l k = some v) : (k, v) ∈ l := by
  unfold alistGet at h
  cases hf : l.find? (fun e => e.1 = k) with
  | none => rw [hf] at h; simp at h
  | some e =>
    rw [hf] at h
    have he : e ∈ l := List.mem_of_find?_eq_some hf
    have hk : e.1 = k := by simpa using List.find?_some hf
    have hv : e.2 = v := by simpa using h
    have : e = (k, v) := Prod.ext hk hv
    rw [← this]
    exact he

/-- Membership in `lockedInsert`. -/
theorem mem_lockedInsert {l : List PositionId} {x y : PositionId}
    (h : x ∈ lockedInsert l y) : x ∈ l ∨ x = y := by
  unfold lockedInsert at h
  by_cases hy : y ∈ l
  · rw [if_pos hy] at h
    exact Or.inl h
  · rw [if_neg hy] at h
    rcases List.mem_append.1 h with h1 | h2
    · exact Or.inl h1
    · exact Or.inr (by simpa using h2)

/-- `lockedInsert` keeps existing members. -/
theorem mem_lockedInsert_of_mem {l : List PositionId} {x : PositionId}
    (y : PositionId) (h : x ∈ l) : x ∈ lockedInsert l y := by
  unfold lockedInsert
  by_cases hy : y ∈ l
  · rwa [if_pos hy]
  · rw [if_neg hy]
    exact List.mem_append.2 (Or.inl h)

/-- `lockedInsert` contains the inserted id. -/
theorem mem_lockedInsert_self (l : List PositionId) (y : PositionId) :
    y ∈ lockedInsert l y := by
  unfold lockedInsert
  by_cases hy : y ∈ l
  · rwa [if_pos hy]
  · rw [if_neg hy]
    exact List.mem_append.2 (Or.inr (by simp))

/-- Inserting a position under its own id preserves cache
consistency. -/
theorem cacheConsistent_insert (c : PositionsCache) (id : PositionId)
    (p : Position) (h : cacheConsistent c) (hp : p.get_id = id) :
    cacheConsistent (alistInsert c id p) := by
  intro e he
  rcases mem_alistInsert c id p e he with h1 | h2
  · exact h e h1
  · rw [h2]
    exact hp

/-- Removing an entry preserves cache consistency. -/
theorem cacheConsistent_remove (c : PositionsCache) (id : PositionId)
    (h : cacheConsistent c) : cacheConsistent (alistRemove c id) := by
  intro e he
  exact h e (List.mem_of_mem_filter he)

/-- `PendingPosition::update` keeps the position id. -/
theorem pending_update_keeps_id (p : PendingPosition) (b : BidAsk) (now : ℕ) :
    (p.update b now).id = p.id := by
  unfold PendingPosition.update PendingPosition.update_asset_prices
    PendingPosition.update_instrument_price
  by_cases h : p.order.instrument = b.instrument <;> simp [h]

/-- `ActivePosition::update` keeps the position id. -/
theorem active_update_keeps_id (p : ActivePosition) (b : BidAsk) :
    (p.update b).id = p.id := by
  unfold ActivePosition.update ActivePosition.update_pnl
    ActivePosition.try_update_asset_price ActivePosition.try_update_instrument_price
  by_cases h : p.order.instrument = b.instrument <;> simp [h]

/-- A pending position that can activate does activate, keeping its
id. -/
theorem activate_ok_of_can_activate (p : PendingPosition) (now : ℕ)
    (h : p.can_activate = true) :
    ∃ a, p.activate now = Except.ok a ∧ a.id = p.id := by
  unfold PendingPosition.can_activate at h
  by_cases h1 : p.total_invest_assets.isEmpty
  · rw [if_pos h1] at h
    cases h
  · rw [if_neg h1] at h
    by_cases h2 : p.is_price_reached
    · unfold PendingPosition.activate
      rw [if_neg (by simp [h2]), if_neg h1]
      exact ⟨_, rfl, rfl⟩
    · rw [if_pos (by simp [h2])] at h
      cases h

/-- `try_cancel_top_ups` keeps the position id. -/
theorem try_cancel_keeps_id (p : ActivePosition) (cp : ℚ) (delay now : ℕ) :
    (p.try_cancel_top_ups cp delay now).1.id = p.id := by
  unfold ActivePosition.try_cancel_top_ups
  by_cases h : p.top_ups.isEmpty <;> simp [h]

/-- `ActivePosition::close` keeps the position id. -/
theorem close_keeps_id (p : ActivePosition) (reason : ClosePositionReason)
    (pa : Option ℕ) (now : ℕ) : (p.close reason pa now).id = p.id := by
  rfl

/-- The per-wallet batch accumulation touches only the batch maps. -/
theorem accumulate_keeps_monitor_fields (acc : UpdateAcc) (p : ActivePosition) :
    (accumulateWalletTotals acc p).kept = acc.kept
    ∧ (accumulateWalletTotals acc p).cache = acc.cache
    ∧ (accumulateWalletTotals acc p).locked = acc.locked
    ∧ (accumulateWalletTotals acc p).events = acc.events := by
  unfold accumulateWalletTotals
  by_cases h : p.order.top_up_enabled <;> simp [h]

/-- A locked id is skipped by the retain step: the id is kept and
nothing else changes. -/
theorem processId_skip (cp : ℚ) (cd : ℕ) (pa : Option ℕ) (b : BidAsk)
    (now : ℕ) (acc : UpdateAcc) (y : PositionId) (hy : y ∈ acc.locked) :
    PositionsMonitor.processId cp cd pa b now acc y
      = { acc with kept := acc.kept ++ [y] } := by
  unfold PositionsMonitor.processId
  rw [if_pos hy]

/-- Retain step on a stale id (nothing cached): the id is dropped and
nothing else changes. -/
theorem processId_stale (cp : ℚ) (cd : ℕ) (pa : Option ℕ) (b : BidAsk)
    (now : ℕ) (acc : UpdateAcc) (y : PositionId) (hy : ¬ y ∈ acc.locked)
    (hget : alistGet acc.cache y = none) :
    PositionsMonitor.processId cp cd pa b now acc y = acc := by
  unfold PositionsMonitor.processId PositionsCache.get
  rw [if_neg hy, hget]

/-- Retain step on a cached closed position: it is removed from the
cache, a `PositionClosed` event is emitted, and the id is dropped. -/
theorem processId_closed (cp : ℚ) (cd : ℕ) (pa : Option ℕ) (b : BidAsk)
    (now : ℕ) (acc : UpdateAcc) (y : PositionId) (c : ClosedPosition)
    (hy : ¬ y ∈ acc.locked)
    (hget : alistGet acc.cache y = some (Position.Closed c)) :
    PositionsMonitor.processId cp cd pa b now acc y
      = { acc with
          cache := alistRemove acc.cache y
          events := acc.events ++ [PositionMonitoringEvent.PositionClosed c] } := by
  unfold PositionsMonitor.processId PositionsCache.get PositionsCache.remove
  rw [if_neg hy, hget]

/-- Retain step on a cached pending position whose trigger price is
not reached: the updated position is written back and the id kept. -/
theorem processId_pending_not_reached (cp : ℚ) (cd : ℕ) (pa : Option ℕ)
    (b : BidAsk) (now : ℕ) (acc : UpdateAcc) (y : PositionId)
    (pos : PendingPosition) (hy : ¬ y ∈ acc.locked)
    (hget : alistGet acc.cache y = some (Position.Pending pos))
    (hnr : (pos.update b now).is_price_reached = false) :
    PositionsMonitor.processId cp cd pa b now acc y
      = { acc with
          cache := alistInsert acc.cache y (Position.Pending (pos.update b now))
          kept := acc.kept ++ [y] } := by
  unfold PositionsMonitor.processId PositionsCache.get PositionsCache.set
  rw [if_neg hy, hget]
  dsimp only
  rw [hnr]
  rfl

/-- Retain step on a pending position whose price is reached but which
cannot activate (unfunded): the id is locked and an
`ActivationPending` lock event is emitted. -/
theorem processId_pending_unfunded (cp : ℚ) (cd : ℕ) (pa : Option ℕ)
    (b : BidAsk) (now : ℕ) (acc : UpdateAcc) (y : PositionId)
    (pos : PendingPosition) (hy : ¬ y ∈ acc.locked)
    (hget : alistGet acc.cache y = some (Position.Pending pos))
    (hr : (pos.update b now).is_price_reached = true)
    (hca : (pos.update b now).can_activate = false) :
    PositionsMonitor.processId cp cd pa b now acc y
      = { acc with
          cache := alistInsert acc.cache y (Position.Pending (pos.update b now))
          kept := acc.kept ++ [y]
          locked := lockedInsert acc.locked (pos.update b now).id
          events := acc.events
            ++ [PositionMonitoringEvent.PositionLocked
                  (PositionLockReason.ActivationPending (pos.update b now))] } := by
  unfold PositionsMonitor.processId PositionsCache.get PositionsCache.set
  rw [if_neg hy, hget]
  dsimp only
  rw [hr, hca]
  rfl

/-- Retain step on a pending position that activates: the pending
entry is replaced by the freshly activated position (updated with the
same tick), a `PositionActivated` event is emitted, and the id kept. -/
theorem processId_pending_activates (cp : ℚ) (cd : ℕ) (pa : Option ℕ)
    (b : BidAsk) (now : ℕ) (acc : UpdateAcc) (y : PositionId)
    (pos : PendingPosition) (a : ActivePosition) (hy : ¬ y ∈ acc.locked)
    (hget : alistGet acc.cache y = some (Position.Pending pos))
    (hr : (pos.update b now).is_price_reached = true)
    (hca : (pos.update b now).can_activate = true)
    (ha : (pos.update b now).activate now = Except.ok a) :
    PositionsMonitor.processId cp cd pa b now acc y
      = { acc with
          cache := alistInsert
            (alistRemove (alistInsert acc.cache y (Position.Pending (pos.update b now))) y)
            (a.update b).id (Position.Active (a.update b))
          kept := acc.kept ++ [y]
          events := acc.events
            ++ [PositionMonitoringEvent.PositionActivated (a.update b)] } := by
  unfold PositionsMonitor.processId PositionsCache.get PositionsCache.set
    PositionsCache.remove PositionsCache.add
  rw [if_neg hy, hget]
  dsimp only
  rw [hr, hca, alistGet_insert_self]
  dsimp only
  rw [ha]
  rfl

/-- Close stage when a close reason holds and the cache holds the
active position: the entry is removed, the close is emitted, and the
wallet-removal check recorded. -/
theorem closeStage_closes (pa : Option ℕ) (now : ℕ) (acc : UpdateAcc)
    (y : PositionId) (position active : ActivePosition)
    (reason : ClosePositionReason)
    (hreason : position.determine_close_reason = some reason)
    (hget : alistGet acc.cache y = some (Position.Active active)) :
    closeStage pa now acc y position
      = { acc with
          cache := alistRemove acc.cache y
          wallet_ids_to_remove := acc.wallet_ids_to_remove
            ++ (if PositionsCache.contains_by_wallet_id (alistRemove acc.cache y)
                    (active.close reason pa now).order.wallet_id then
                  [(active.close reason pa now).order.wallet_id]
                else [])
          events := acc.events
            ++ [PositionMonitoringEvent.PositionClosed
                  (active.close reason pa now)] } := by
  unfold closeStage PositionsCache.remove
  rw [hreason]
  dsimp only
  rw [hget]

/-- Close stage when no close reason holds: the surviving position's
batch totals are accumulated and the id kept. -/
theorem closeStage_keeps (pa : Option ℕ) (now : ℕ) (acc : UpdateAcc)
    (y : PositionId) (position : ActivePosition)
    (hreason : position.determine_close_reason = none) :
    closeStage pa now acc y position
      = { accumulateWalletTotals acc position with
          kept := (accumulateWalletTotals acc position).kept ++ [y] } := by
  unfold closeStage
  rw [hreason]

/-- Retain step on a cached active position that is top-up eligible:
write back the updated position, emit the optional margin-call event
and the top-up lock event, lock the id, and run the close stage. -/
theorem processId_active_top_up (cp : ℚ) (cd : ℕ) (pa : Option ℕ)
    (b : BidAsk) (now : ℕ) (acc : UpdateAcc) (y : PositionId)
    (pos : ActivePosition) (hy : ¬ y ∈ acc.locked)
    (hget : alistGet acc.cache y = some (Position.Active pos))
    (ht : (pos.update b).is_top_up = true) :
    PositionsMonitor.processId cp cd pa b now acc y
      = closeStage pa now
          { acc with
            cache := alistInsert acc.cache y (Position.Active (pos.update b))
            locked := lockedInsert acc.locked (pos.update b).id
            events := (acc.events
                ++ (if (pos.update b).is_margin_call then
                      [PositionMonitoringEvent.PositionMarginCall (pos.update b)]
                    else []))
              ++ [PositionMonitoringEvent.PositionLocked
                    (PositionLockReason.TopUp (pos.update b))] }
          y (pos.update b) := by
  unfold PositionsMonitor.processId PositionsCache.get PositionsCache.set
  rw [if_neg hy, hget]
  dsimp only
  rw [ht]
  exact if_pos rfl

/-- Retain step on a cached active position that is not top-up
eligible: write back, emit the optional margin-call event, attempt
top-up cancellation (writing back again and locking/emitting when
something was cancelled), and run the close stage. -/
theorem processId_active_cancel (cp : ℚ) (cd : ℕ) (pa : Option ℕ)
    (b : BidAsk) (now : ℕ) (acc : UpdateAcc) (y : PositionId)
    (pos p2 : ActivePosition) (canceled : List CanceledTopUp)
    (hy : ¬ y ∈ acc.locked)
    (hget : alistGet acc.cache y = some (Position.Active pos))
    (ht : (pos.update b).is_top_up = false)
    (hc : (pos.update b).try_cancel_top_ups cp cd now = (p2, canceled)) :
    PositionsMonitor.processId cp cd pa b now acc y
      = closeStage pa now
          { acc with
            cache := alistInsert
              (alistInsert acc.cache y (Position.Active (pos.update b)))
              y (Position.Active p2)
            locked :=
              if !canceled.isEmpty then
                lockedInsert acc.locked p2.id
              else acc.locked
            events := (acc.events
                ++ (if (pos.update b).is_margin_call then
                      [PositionMonitoringEvent.PositionMarginCall (pos.update b)]
                    else []))
              ++ (if !canceled.isEmpty then
                    [PositionMonitoringEvent.PositionLocked
                      (PositionLockReason.TopUpsCanceled p2 canceled)]
                  else []) }
          y p2 := by
  unfold PositionsMonitor.processId PositionsCache.get PositionsCache.set
  rw [if_neg hy, hget]
  dsimp only
  rw [ht, hc]
  rw [if_neg Bool.false_ne_true]

/-- Frame facts of the close stage relative to its input accumulator:
other cache keys are untouched, consistency is preserved, the locked
set is unchanged, all appended events refer to position `y`, kept only
grows, and the entry at `y` is either untouched or a `PositionClosed`
event for `y` is emitted. -/
theorem closeStage_frame (pa : Option ℕ) (now : ℕ) (acc2 : UpdateAcc)
    (y : PositionId) (position : ActivePosition)
    (hcons : cacheConsistent acc2.cache) :
    (∀ k, k ≠ y →
      alistGet (closeStage pa now acc2 y position).cache k = alistGet acc2.cache k)
    ∧ cacheConsistent (closeStage pa now acc2 y position).cache
    ∧ (closeStage pa now acc2 y position).locked = acc2.locked
    ∧ (∃ s, (closeStage pa now acc2 y position).events = acc2.events ++ s
        ∧ ∀ ev ∈ s, ev.positionId = some y ∨ ev.positionId = none)
    ∧ (∃ ks, (closeStage pa now acc2 y position).kept = acc2.kept ++ ks)
    ∧ (alistGet (closeStage pa now acc2 y position).cache y = alistGet acc2.cache y
        ∨ ∃ c, PositionMonitoringEvent.PositionClosed c
              ∈ (closeStage pa now acc2 y position).events ∧ c.id = y) := by
  cases hreason : position.determine_close_reason with
  | none =>
    rw [closeStage_keeps pa now acc2 y position hreason]
    obtain ⟨hk, hc, hl, he⟩ := accumulate_keeps_monitor_fields acc2 position
    exact ⟨fun k _ => by rw [hc], by rw [hc]; exact hcons, by rw [hl],
      ⟨[], by rw [he, List.append_nil], by simp⟩, ⟨[y], by rw [hk]⟩,
      Or.inl (by rw [hc])⟩
  | some reason =>
    cases hget2 : alistGet acc2.cache y with
    | none =>
      have heq : closeStage pa now acc2 y position
          = { acc2 with kept := acc2.kept ++ [y] } := by
        unfold closeStage PositionsCache.remove
        rw [hreason]
        dsimp only
        rw [hget2]
      rw [heq]
      exact ⟨fun k _ => rfl, hcons, rfl, ⟨[], by simp, by simp⟩, ⟨[y], rfl⟩,
        Or.inl hget2⟩
    | some pos2 =>
      cases pos2 with
      | Closed cc =>
        have heq : closeStage pa now acc2 y position
            = { acc2 with kept := acc2.kept ++ [y] } := by
          unfold closeStage PositionsCache.remove
          rw [hreason]
          dsimp only
          rw [hget2]
        rw [heq]
        exact ⟨fun k _ => rfl, hcons, rfl, ⟨[], by simp, by simp⟩, ⟨[y], rfl⟩,
          Or.inl hget2⟩
      | Pending pp =>
        have heq : closeStage pa now acc2 y position
            = { acc2 with kept := acc2.kept ++ [y] } := by
          unfold closeStage PositionsCache.remove
          rw [hreason]
          dsimp only
          rw [hget2]
        rw [heq]
        exact ⟨fun k _ => rfl, hcons, rfl, ⟨[], by simp, by simp⟩, ⟨[y], rfl⟩,
          Or.inl hget2⟩
      | Active active =>
        rw [closeStage_closes pa now acc2 y position active reason hreason hget2]
        have hid : active.id = y := by
          have hmem := mem_of_alistGet_eq_some acc2.cache y
            (Position.Active active) hget2
          simpa using hcons _ hmem
        refine ⟨fun k hk => alistGet_remove_ne acc2.cache y k hk,
          cacheConsistent_remove acc2.cache y hcons, rfl,
          ⟨[PositionMonitoringEvent.PositionClosed (active.close reason pa now)],
            rfl, ?_⟩,
          ⟨[], by simp⟩,
          Or.inr ⟨active.close reason pa now, ?_, ?_⟩⟩
        · intro ev hev
          left
          have : ev = PositionMonitoringEvent.PositionClosed
              (active.close reason pa now) := by simpa using hev
          rw [this]
          show some (active.close reason pa now).id = some y
          rw [close_keeps_id, hid]
        · exact List.mem_append.2 (Or.inr (by simp))
        · rw [close_keeps_id]
          exact hid

/-- Frame facts of one retain step: only the processed id's cache
entry can change, consistency is preserved, the locked set only gains
(at most) the processed id, all appended events refer to the processed
position, the kept list only grows, and every locked id is an old one,
a cached one, or one whose `PositionClosed` event was emitted. -/
theorem processId_frame (cp : ℚ) (cd : ℕ) (pa : Option ℕ) (b : BidAsk)
    (now : ℕ) (acc : UpdateAcc) (y : PositionId)
    (hcons : cacheConsistent acc.cache) :
    (∀ k, k ≠ y →
      alistGet (PositionsMonitor.processId cp cd pa b now acc y).cache k
        = alistGet acc.cache k)
    ∧ cacheConsistent (PositionsMonitor.processId cp cd pa b now acc y).cache
    ∧ (∀ x ∈ acc.locked, x ∈ (PositionsMonitor.processId cp cd pa b now acc y).locked)
    ∧ (∀ x ∈ (PositionsMonitor.processId cp cd pa b now acc y).locked,
        x ∈ acc.locked ∨ x = y)
    ∧ (∃ s, (PositionsMonitor.processId cp cd pa b now acc y).events
          = acc.events ++ s
        ∧ ∀ ev ∈ s, ev.positionId = some y ∨ ev.positionId = none)
    ∧ (∃ ks, (PositionsMonitor.processId cp cd pa b now acc y).kept
          = acc.kept ++ ks)
    ∧ (∀ x ∈ (PositionsMonitor.processId cp cd pa b now acc y).locked,
        x ∈ acc.locked
        ∨ (alistGet (PositionsMonitor.processId cp cd pa b now acc y).cache x).isSome
            = true
        ∨ ∃ c, PositionMonitoringEvent.PositionClosed c
              ∈ (PositionsMonitor.processId cp cd pa b now acc y).events
            ∧ c.id = x) := by
  by_cases hy : y ∈ acc.locked
  · rw [processId_skip cp cd pa b now acc y hy]
    exact ⟨fun k _ => rfl, hcons, fun x hx => hx, fun x hx => Or.inl hx,
      ⟨[], by simp, by simp⟩, ⟨[y], rfl⟩, fun x hx => Or.inl hx⟩
  · cases hget : alistGet acc.cache y with
    | none =>
      rw [processId_stale cp cd pa b now acc y hy hget]
      exact ⟨fun k _ => rfl, hcons, fun x hx => hx, fun x hx => Or.inl hx,
        ⟨[], by simp, by simp⟩, ⟨[], by simp⟩, fun x hx => Or.inl hx⟩
    | some pos =>
      cases pos with
      | Closed c =>
        rw [processId_closed cp cd pa b now acc y c hy hget]
        have hid : c.id = y := by
          have hmem := mem_of_alistGet_eq_some acc.cache y (Position.Closed c) hget
          simpa using hcons _ hmem
        refine ⟨fun k hk => alistGet_remove_ne acc.cache y k hk,
          cacheConsistent_remove acc.cache y hcons, fun x hx => hx,
          fun x hx => Or.inl hx,
          ⟨[PositionMonitoringEvent.PositionClosed c], rfl, ?_⟩,
          ⟨[], by simp⟩, fun x hx => Or.inl hx⟩
        intro ev hev
        left
        have : ev = PositionMonitoringEvent.PositionClosed c := by simpa using hev
        rw [this]
        show some c.id = some y
        rw [hid]
      | Pending pos =>
        have hid : pos.id = y := by
          have hmem := mem_of_alistGet_eq_some acc.cache y (Position.Pending pos) hget
          simpa using hcons _ hmem
        have hpuid : (pos.update b now).id = y := by
          rw [pending_update_keeps_id]
          exact hid
        cases hr : (pos.update b now).is_price_reached with
        | false =>
          rw [processId_pending_not_reached cp cd pa b now acc y pos hy hget hr]
          refine ⟨fun k hk => alistGet_insert_ne acc.cache y _ k hk,
            cacheConsistent_insert acc.cache y _ hcons (by simpa using hpuid),
            fun x hx => hx, fun x hx => Or.inl hx,
            ⟨[], by simp, by simp⟩, ⟨[y], rfl⟩, fun x hx => Or.inl hx⟩
        | true =>
          cases hca : (pos.update b now).can_activate with
          | false =>
            rw [processId_pending_unfunded cp cd pa b now acc y pos hy hget hr hca]
            refine ⟨fun k hk => alistGet_insert_ne acc.cache y _ k hk,
              cacheConsistent_insert acc.cache y _ hcons (by simpa using hpuid),
              fun x hx => mem_lockedInsert_of_mem _ hx,
              fun x hx => ?_,
              ⟨[PositionMonitoringEvent.PositionLocked
                  (PositionLockReason.ActivationPending (pos.update b now))],
                rfl, ?_⟩,
              ⟨[y], rfl⟩, fun x hx => ?_⟩
            · rcases mem_lockedInsert hx with h1 | h2
              · exact Or.inl h1
              · exact Or.inr (by rw [h2, hpuid])
            · intro ev hev
              left
              have : ev = PositionMonitoringEvent.PositionLocked
                  (PositionLockReason.ActivationPending (pos.update b now)) := by
                simpa using hev
              rw [this]
              show some (pos.update b now).id = some y
              rw [hpuid]
            · rcases mem_lockedInsert hx with h1 | h2
              · exact Or.inl h1
              · refine Or.inr (Or.inl ?_)
                rw [h2, hpuid, alistGet_insert_self]
                rfl
          | true =>
            obtain ⟨a, ha, haid⟩ :=
              activate_ok_of_can_activate (pos.update b now) now hca
            have haid2 : (a.update b).id = y := by
              rw [active_update_keeps_id, haid, hpuid]
            rw [processId_pending_activates cp cd pa b now acc y pos a hy hget hr hca ha]
            refine ⟨fun k hk => ?_,
              cacheConsistent_insert _ _ _
                (cacheConsistent_remove _ y
                  (cacheConsistent_insert acc.cache y _ hcons (by simpa using hpuid)))
                rfl,
              fun x hx => hx, fun x hx => Or.inl hx,
              ⟨[PositionMonitoringEvent.PositionActivated (a.update b)], rfl, ?_⟩,
              ⟨[y], rfl⟩, fun x hx => Or.inl hx⟩
            · rw [haid2, alistGet_insert_ne _ _ _ k hk, alistGet_remove_ne _ _ _ hk,
                alistGet_insert_ne _ _ _ k hk]
            · intro ev hev
              left
              have : ev = PositionMonitoringEvent.PositionActivated (a.update b) := by
                simpa using hev
              rw [this]
              show some (a.update b).id = some y
              rw [haid2]
      | Active pos =>
        have hid : pos.id = y := by
          have hmem := mem_of_alistGet_eq_some acc.cache y (Position.Active pos) hget
          simpa using hcons _ hmem
        have hpuid : (pos.update b).id = y := by
          rw [active_update_keeps_id]
          exact hid
        cases ht : (pos.update b).is_top_up with
        | true =>
          rw [processId_active_top_up cp cd pa b now acc y pos hy hget ht]
          have hcons2 : cacheConsistent
              (alistInsert acc.cache y (Position.Active (pos.update b))) :=
            cacheConsistent_insert acc.cache y _ hcons (by simpa using hpuid)
          obtain ⟨f1, f2, f3, ⟨s2, hs2, hs2id⟩, ⟨ks2, hks2⟩, f6⟩ :=
            closeStage_frame pa now
              { acc with
                cache := alistInsert acc.cache y (Position.Active (pos.update b))
                locked := lockedInsert acc.locked (pos.update b).id
                events := (acc.events
                    ++ (if (pos.update b).is_margin_call then
                          [PositionMonitoringEvent.PositionMarginCall (pos.update b)]
                        else []))
                  ++ [PositionMonitoringEvent.PositionLocked
                        (PositionLockReason.TopUp (pos.update b))] }
              y (pos.update b) hcons2
          refine ⟨fun k hk => by rw [f1 k hk]; exact alistGet_insert_ne _ _ _ k hk,
            f2,
            fun x hx => by rw [f3]; exact mem_lockedInsert_of_mem _ hx,
            fun x hx => ?_,
            ⟨((if (pos.update b).is_margin_call then
                  [PositionMonitoringEvent.PositionMarginCall (pos.update b)]
                else [])
              ++ [PositionMonitoringEvent.PositionLocked
                    (PositionLockReason.TopUp (pos.update b))]) ++ s2,
              by rw [hs2]; simp, ?_⟩,
            ⟨ks2, by rw [hks2]⟩,
            fun x hx => ?_⟩
          · rw [f3] at hx
            rcases mem_lockedInsert hx with h1 | h2
            · exact Or.inl h1
            · exact Or.inr (by rw [h2, hpuid])
          · intro ev hev
            rcases List.mem_append.1 hev with h1 | h2
            · rcases List.mem_append.1 h1 with h3 | h4
              · left
                by_cases hm : (pos.update b).is_margin_call
                  <;> simp [hm] at h3
                rw [h3]
                show some (pos.update b).id = some y
                rw [hpuid]
              · left
                have : ev = PositionMonitoringEvent.PositionLocked
                    (PositionLockReason.TopUp (pos.update b)) := by simpa using h4
                rw [this]
                show some (pos.update b).id = some y
                rw [hpuid]
            · exact hs2id ev h2
          · rw [f3] at hx
            rcases mem_lockedInsert hx with h1 | h2
            · exact Or.inl h1
            · have h2' : x = y := by rw [h2, hpuid]
              rcases f6 with hsame | ⟨c, hc1, hc2⟩
              · refine Or.inr (Or.inl ?_)
                rw [h2', hsame]
                show (alistGet
                  (alistInsert acc.cache y (Position.Active (pos.update b))) y).isSome
                    = true
                rw [alistGet_insert_self]
                rfl
              · exact Or.inr (Or.inr ⟨c, hc1, by rw [hc2, h2']⟩)
        | false =>
          obtain ⟨p2, canceled, hc⟩ :
              ∃ p2 canceled, (pos.update b).try_cancel_top_ups cp cd now
                = (p2, canceled) :=
            ⟨_, _, rfl⟩
          have hp2id : p2.id = y := by
            have := try_cancel_keeps_id (pos.update b) cp cd now
            rw [hc] at this
            rw [← hpuid]
            exact this
          rw [processId_active_cancel cp cd pa b now acc y pos p2 canceled hy hget ht hc]
          have hcons2 : cacheConsistent
              (alistInsert (alistInsert acc.cache y (Position.Active (pos.update b)))
                y (Position.Active p2)) :=
            cacheConsistent_insert _ y _
              (cacheConsistent_insert acc.cache y _ hcons (by simpa using hpuid))
              (by simpa using hp2id)
          obtain ⟨f1, f2, f3, ⟨s2, hs2, hs2id⟩, ⟨ks2, hks2⟩, f6⟩ :=
            closeStage_frame pa now
              { acc with
                cache := alistInsert
                  (alistInsert acc.cache y (Position.Active (pos.update b)))
                  y (Position.Active p2)
                locked :=
                  if !canceled.isEmpty then
                    lockedInsert acc.locked p2.id
                  else acc.locked
                events := (acc.events
                    ++ (if (pos.update b).is_margin_call then
                          [PositionMonitoringEvent.PositionMarginCall (pos.update b)]
                        else []))
                  ++ (if !canceled.isEmpty then
                        [PositionMonitoringEvent.PositionLocked
                          (PositionLockReason.TopUpsCanceled p2 canceled)]
                      else []) }
              y p2 hcons2
          refine ⟨fun k hk => by
              rw [f1 k hk, alistGet_insert_ne _ _ _ k hk, alistGet_insert_ne _ _ _ k hk],
            f2,
            fun x hx => by
              rw [f3]
              by_cases hce : !canceled.isEmpty <;> simp only [hce, if_true, if_false]
              · exact mem_lockedInsert_of_mem _ hx
              · exact hx,
            fun x hx => ?_,
            ⟨((if (pos.update b).is_margin_call then
                  [PositionMonitoringEvent.PositionMarginCall (pos.update b)]
                else [])
              ++ (if !canceled.isEmpty then
                    [PositionMonitoringEvent.PositionLocked
                      (PositionLockReason.TopUpsCanceled p2 canceled)]
                  else [])) ++ s2,
              by rw [hs2]; simp, ?_⟩,
            ⟨ks2, by rw [hks2]⟩,
            fun x hx => ?_⟩
          · rw [f3] at hx
            by_cases hce : !canceled.isEmpty
            · rw [if_pos hce] at hx
              rcases mem_lockedInsert hx with h1 | h2
              · exact Or.inl h1
              · exact Or.inr (by rw [h2, hp2id])
            · rw [if_neg hce] at hx
              exact Or.inl hx
          · intro ev hev
            rcases List.mem_append.1 hev with h1 | h2
            · rcases List.mem_append.1 h1 with h3 | h4
              · left
                by_cases hm : (pos.update b).is_margin_call
                  <;> simp [hm] at h3
                rw [h3]
                show some (pos.update b).id = some y
                rw [hpuid]
              · left
                by_cases hce : !canceled.isEmpty
                  <;> simp [hce] at h4
                rw [h4]
                show some p2.id = some y
                rw [hp2id]
            · exact hs2id ev h2
          · rw [f3] at hx
            have hx' : x ∈ acc.locked ∨ x = y := by
              by_cases hce : !canceled.isEmpty
              · rw [if_pos hce] at hx
                rcases mem_lockedInsert hx with h1 | h2
                · exact Or.inl h1
                · exact Or.inr (by rw [h2, hp2id])
              · rw [if_neg hce] at hx
                exact Or.inl hx
            rcases hx' with h1 | h2
            · exact Or.inl h1
            · rcases f6 with hsame | ⟨c, hc1, hc2⟩
              · refine Or.inr (Or.inl ?_)
                rw [h2, hsame]
                show (alistGet
                  (alistInsert
                    (alistInsert acc.cache y (Position.Active (pos.update b)))
                    y (Position.Active p2)) y).isSome = true
                rw [alistGet_insert_self]
                rfl
              · exact Or.inr (Or.inr ⟨c, hc1, by rw [hc2, h2]⟩)

/-- Folding the retain step over a list of ids: a locked id's cache
entry survives untouched, the id stays locked, no emitted event refers
to it, and it is kept whenever it occurs in the list. -/
theorem foldProcess_locked_skip (cp : ℚ) (cd : ℕ) (pa : Option ℕ)
    (b : BidAsk) (now : ℕ) (pid : PositionId) (l : List PositionId)
    (acc : UpdateAcc) (h1 : pid ∈ acc.locked)
    (h2 : cacheConsistent acc.cache) :
    pid ∈ (l.foldl (PositionsMonitor.processId cp cd pa b now) acc).locked
    ∧ cacheConsistent (l.foldl (PositionsMonitor.processId cp cd pa b now) acc).cache
    ∧ alistGet (l.foldl (PositionsMonitor.processId cp cd pa b now) acc).cache pid
        = alistGet acc.cache pid
    ∧ (∃ s, (l.foldl (PositionsMonitor.processId cp cd pa b now) acc).events
          = acc.events ++ s ∧ ∀ ev ∈ s, ev.positionId ≠ some pid)
    ∧ (∃ ks, (l.foldl (PositionsMonitor.processId cp cd pa b now) acc).kept
          = acc.kept ++ ks ∧ (pid ∈ l → pid ∈ ks)) := by
  induction l generalizing acc with
  | nil =>
    exact ⟨h1, h2, rfl, ⟨[], by simp, by simp⟩,
      ⟨[], by simp, fun h => absurd h (List.not_mem_nil pid)⟩⟩
  | cons y l ih =>
    rw [List.foldl_cons]
    obtain ⟨f1, f2, f3, f4, ⟨s1, hs1, hs1id⟩, ⟨ks1, hks1⟩, _⟩ :=
      processId_frame cp cd pa b now acc y h2
    have h1' : pid ∈ (PositionsMonitor.processId cp cd pa b now acc y).locked :=
      f3 pid h1
    obtain ⟨g1, g2, g3, ⟨s2, hs2, hs2id⟩, ⟨ks2, hks2, hks2pid⟩⟩ :=
      ih (PositionsMonitor.processId cp cd pa b now acc y) h1' f2
    by_cases hyp : y = pid
    · subst hyp
      rw [processId_skip cp cd pa b now acc y h1] at *
      refine ⟨g1, g2, g3, ⟨s2, hs2, hs2id⟩, ⟨[y] ++ ks2, ?_, fun _ => by simp⟩⟩
      rw [hks2]
      simp
    · refine ⟨g1, g2, by rw [g3, f1 pid (Ne.symm hyp)],
        ⟨s1 ++ s2, by rw [hs2, hs1, List.append_assoc], ?_⟩,
        ⟨ks1 ++ ks2, by rw [hks2, hks1, List.append_assoc], ?_⟩⟩
      · intro ev hev
        rcases List.mem_append.1 hev with ha | hb
        · rcases hs1id ev ha with hsome | hnone
          · rw [hsome]
            intro hcontra
            exact hyp (by simpa using hcontra)
          · rw [hnone]
            simp
        · exact hs2id ev hb
      · intro hpidl
        have : pid ∈ l := by
          rcases List.mem_cons.1 hpidl with ha | hb
          · exact absurd ha.symm hyp
          · exact hb
        exact List.mem_append.2 (Or.inr (hks2pid this))

/-- Folding the retain step over a list of ids: starting from a state
where every locked id is cached or already closed-with-event, this
property is preserved. -/
theorem foldProcess_locked_covered (cp : ℚ) (cd : ℕ) (pa : Option ℕ)
    (b : BidAsk) (now : ℕ) (l : List PositionId) (acc : UpdateAcc)
    (h2 : cacheConsistent acc.cache)
    (hcov : ∀ x ∈ acc.locked,
      (alistGet acc.cache x).isSome = true
      ∨ ∃ c, PositionMonitoringEvent.PositionClosed c ∈ acc.events ∧ c.id = x) :
    cacheConsistent (l.foldl (PositionsMonitor.processId cp cd pa b now) acc).cache
    ∧ ∀ x ∈ (l.foldl (PositionsMonitor.processId cp cd pa b now) acc).locked,
      (alistGet (l.foldl (PositionsMonitor.processId cp cd pa b now) acc).cache x).isSome
          = true
      ∨ ∃ c, PositionMonitoringEvent.PositionClosed c
            ∈ (l.foldl (PositionsMonitor.processId cp cd pa b now) acc).events
          ∧ c.id = x := by
  induction l generalizing acc with
  | nil => exact ⟨h2, hcov⟩
  | cons y l ih =>
    rw [List.foldl_cons]
    obtain ⟨f1, f2, f3, f4, ⟨s1, hs1, hs1id⟩, ⟨ks1, hks1⟩, f8⟩ :=
      processId_frame cp cd pa b now acc y h2
    refine ih (PositionsMonitor.processId cp cd pa b now acc y) f2 ?_
    intro x hx
    rcases f8 x hx with hold | hsome | hev
    · rcases hcov x hold with hco | ⟨c, hc1, hc2⟩
      · by_cases hyl : y ∈ acc.locked
        · rw [processId_skip cp cd pa b now acc y hyl]
          exact Or.inl hco
        · have hxy : x ≠ y := fun hcontra => hyl (hcontra ▸ hold)
          rw [f1 x hxy]
          exact Or.inl hco
      · refine Or.inr ⟨c, ?_, hc2⟩
        rw [hs1]
        exact List.mem_append.2 (Or.inl hc1)
    · exact Or.inl hsome
    · exact Or.inr hev

/-- `remove_wallet` leaves the position cache, the locked set and the
position index untouched. -/
theorem remove_wallet_keeps_positions (m : PositionsMonitor) (wid : WalletId) :
    (m.remove_wallet wid).positions_cache = m.positions_cache
    ∧ (m.remove_wallet wid).locked_ids = m.locked_ids
    ∧ (m.remove_wallet wid).ids_by_instruments = m.ids_by_instruments := by
  unfold PositionsMonitor.remove_wallet
  cases alistGet m.wallets_by_ids wid <;> simp

/-- Folding `remove_wallet` leaves the position cache, the locked set
and the position index untouched. -/
theorem fold_remove_wallet_keeps_positions (wids : List WalletId)
    (m : PositionsMonitor) :
    (wids.foldl PositionsMonitor.remove_wallet m).positions_cache = m.positions_cache
    ∧ (wids.foldl PositionsMonitor.remove_wallet m).locked_ids = m.locked_ids
    ∧ (wids.foldl PositionsMonitor.remove_wallet m).ids_by_instruments
        = m.ids_by_instruments := by
  induction wids generalizing m with
  | nil => exact ⟨rfl, rfl, rfl⟩
  | cons w wids ih =>
    rw [List.foldl_cons]
    obtain ⟨a1, a2, a3⟩ := ih (m.remove_wallet w)
    obtain ⟨b1, b2, b3⟩ := remove_wallet_keeps_positions m w
    exact ⟨by rw [a1, b1], by rw [a2, b2], by rw [a3, b3]⟩

/-- `update_wallet_prices` leaves the position cache, the locked set
and the position index untouched. -/
theorem update_wallet_prices_keeps_positions (m : PositionsMonitor) (b : BidAsk) :
    (m.update_wallet_prices b).positions_cache = m.positions_cache
    ∧ (m.update_wallet_prices b).locked_ids = m.locked_ids
    ∧ (m.update_wallet_prices b).ids_by_instruments = m.ids_by_instruments := by
  unfold PositionsMonitor.update_wallet_prices
  cases alistGet m.wallet_ids_by_instruments b.instrument <;> simp

/-- `update_wallet_reserved` leaves the position cache, the locked set
and the position index untouched. -/
theorem update_wallet_reserved_keeps_positions (m : PositionsMonitor)
    (b : BidAsk) (res : List (WalletId × List AssetAmount)) :
    (m.update_wallet_reserved b res).positions_cache = m.positions_cache
    ∧ (m.update_wallet_reserved b res).locked_ids = m.locked_ids
    ∧ (m.update_wallet_reserved b res).ids_by_instruments = m.ids_by_instruments := by
  unfold PositionsMonitor.update_wallet_reserved
  exact ⟨rfl, rfl, rfl⟩

/-- One `walletPnlStep` leaves the position-side structures of the
monitor untouched and only appends wallet-level events. -/
theorem walletPnlStep_fields (b : BidAsk)
    (acc : PositionsMonitor × List PositionMonitoringEvent) (e : WalletId × ℚ) :
    (walletPnlStep b acc e).1.positions_cache = acc.1.positions_cache
    ∧ (walletPnlStep b acc e).1.locked_ids = acc.1.locked_ids
    ∧ (walletPnlStep b acc e).1.ids_by_instruments = acc.1.ids_by_instruments
    ∧ ∃ s, (walletPnlStep b acc e).2 = acc.2 ++ s
        ∧ ∀ ev ∈ s, ev.positionId = none := by
  unfold walletPnlStep
  cases hw : alistGet acc.1.wallets_by_ids e.1 with
  | none => exact ⟨rfl, rfl, rfl, [], by simp, by simp⟩
  | some wallet =>
    dsimp only
    by_cases hmc : ((wallet.set_top_up_pnl b.instrument e.2).update_loss).is_margin_call
    · rw [if_pos hmc]
      refine ⟨rfl, rfl, rfl,
        [PositionMonitoringEvent.WalletMarginCall
          { loss_percent :=
              ((wallet.set_top_up_pnl b.instrument e.2).update_loss).current_loss_percent
            pnl := e.2
            wallet_id := ((wallet.set_top_up_pnl b.instrument e.2).update_loss).id
            trader_id :=
              ((wallet.set_top_up_pnl b.instrument e.2).update_loss).trader_id }],
        rfl, ?_⟩
      intro ev hev
      have hev' : ev = PositionMonitoringEvent.WalletMarginCall
          { loss_percent :=
              ((wallet.set_top_up_pnl b.instrument e.2).update_loss).current_loss_percent
            pnl := e.2
            wallet_id := ((wallet.set_top_up_pnl b.instrument e.2).update_loss).id
            trader_id :=
              ((wallet.set_top_up_pnl b.instrument e.2).update_loss).trader_id } := by
        simpa using hev
      rw [hev']
      rfl
    · rw [if_neg hmc]
      exact ⟨rfl, rfl, rfl, [], by simp, by simp⟩

/-- The wallet-pnl phase of `update` leaves `positions_cache`,
`locked_ids` and `ids_by_instruments` unchanged and only appends
events that refer to no position. -/
theorem update_wallet_pnls_keeps_positions (b : BidAsk)
    (pnls : List (WalletId × ℚ)) (st : PositionsMonitor × List PositionMonitoringEvent) :
    (pnls.foldl (walletPnlStep b) st).1.positions_cache = st.1.positions_cache
    ∧ (pnls.foldl (walletPnlStep b) st).1.locked_ids = st.1.locked_ids
    ∧ (pnls.foldl (walletPnlStep b) st).1.ids_by_instruments = st.1.ids_by_instruments
    ∧ ∃ s, (pnls.foldl (walletPnlStep b) st).2 = st.2 ++ s
        ∧ ∀ ev ∈ s, ev.positionId = none := by
  induction pnls generalizing st with
  | nil => exact ⟨rfl, rfl, rfl, [], by simp, by simp⟩
  | cons e pnls ih =>
    rw [List.foldl_cons]
    obtain ⟨h1, h2, h3, s1, hs1, hid1⟩ := walletPnlStep_fields b st e
    obtain ⟨a1, a2, a3, s2, hs2, hid2⟩ := ih (walletPnlStep b st e)
    refine ⟨a1.trans h1, a2.trans h2, a3.trans h3, s1 ++ s2, ?_, ?_⟩
    · rw [hs2, hs1, List.append_assoc]
    · intro ev hev
      rcases List.mem_append.1 hev with ha | hb
      · exact hid1 ev ha
      · exact hid2 ev hb

/-- `updateFinish` installs the accumulator's cache, locked set and
kept index verbatim; the wallet phases touch no position-side
structure and only append events that refer to no position. -/
theorem updateFinish_fields (m : PositionsMonitor) (b : BidAsk) (acc : UpdateAcc) :
    (m.updateFinish b acc).1.positions_cache = acc.cache
    ∧ (m.updateFinish b acc).1.locked_ids = acc.locked
    ∧ (m.updateFinish b acc).1.ids_by_instruments
        = alistInsert m.ids_by_instruments b.instrument acc.kept
    ∧ ∃ w, (m.updateFinish b acc).2 = acc.events ++ w
        ∧ ∀ ev ∈ w, ev.positionId = none := by
  have r2 := fold_remove_wallet_keeps_positions acc.wallet_ids_to_remove
    { m with
      positions_cache := acc.cache, locked_ids := acc.locked,
      ids_by_instruments := alistInsert m.ids_by_instruments b.instrument acc.kept }
  have r3 := update_wallet_prices_keeps_positions
    (acc.wallet_ids_to_remove.foldl PositionsMonitor.remove_wallet
      { m with
        positions_cache := acc.cache, locked_ids := acc.locked,
        ids_by_instruments := alistInsert m.ids_by_instruments b.instrument acc.kept }) b
  have r4 := update_wallet_reserved_keeps_positions
    ((acc.wallet_ids_to_remove.foldl PositionsMonitor.remove_wallet
      { m with
        positions_cache := acc.cache, locked_ids := acc.locked,
        ids_by_instruments :=
          alistInsert m.ids_by_instruments b.instrument acc.kept }).update_wallet_prices b)
    b acc.top_up_reserved
  obtain ⟨w1, w2, w3, w, hw, hwid⟩ :=
    update_wallet_pnls_keeps_positions b acc.top_up_pnls
      ((((acc.wallet_ids_to_remove.foldl PositionsMonitor.remove_wallet
        { m with
          positions_cache := acc.cache, locked_ids := acc.locked,
          ids_by_instruments :=
            alistInsert m.ids_by_instruments b.instrument
              acc.kept }).update_wallet_prices b).update_wallet_reserved
        b acc.top_up_reserved), [])
  exact ⟨w1.trans (r4.1.trans (r3.1.trans r2.1)),
    w2.trans (r4.2.1.trans (r3.2.1.trans r2.2.1)),
    w3.trans (r4.2.2.trans (r3.2.2.trans r2.2.2)),
    w, congrArg (fun l => acc.events ++ l) (hw.trans (List.nil_append w)), hwid⟩

/-- Claim C9: a position whose id is in the locked set is skipped by
`PositionsMonitor::update` — its cache entry is unchanged, its id
stays locked and stays in the instrument→ids index, no emitted event
refers to it, and an explicit `unlock` of the id removes it from the
locked set (only then do automated updates resume). -/
theorem locked_position_skipped_by_update (m : PositionsMonitor) (b : BidAsk)
    (now : ℕ) (pid : PositionId)
    (hlock : pid ∈ m.locked_ids)
    (hcons : cacheConsistent m.positions_cache) :
    alistGet (m.update b now).1.positions_cache pid
        = alistGet m.positions_cache pid
    ∧ pid ∈ (m.update b now).1.locked_ids
    ∧ (∀ instr, pid ∈ (alistGet m.ids_by_instruments instr).getD []
        → pid ∈ (alistGet (m.update b now).1.ids_by_instruments instr).getD [])
    ∧ (∀ ev ∈ (m.update b now).2, ev.positionId ≠ some pid)
    ∧ pid ∉ (m.unlock pid).locked_ids := by
  have hunlock : pid ∉ (m.unlock pid).locked_ids := by
    simp [PositionsMonitor.unlock, List.mem_filter]
  cases hids : alistGet m.ids_by_instruments b.instrument with
  | none =>
    have hup : m.update b now = (m, []) := by
      unfold PositionsMonitor.update
      rw [hids]
    rw [hup]
    exact ⟨rfl, hlock, fun instr h => h,
      fun ev hev => absurd hev (List.not_mem_nil ev), hunlock⟩
  | some position_ids =>
    have hup : m.update b now
        = m.updateFinish b (m.updateRetain b now position_ids) := by
      unfold PositionsMonitor.update
      rw [hids]
    obtain ⟨f1, f2, f3, w, hw, hwid⟩ :=
      updateFinish_fields m b (m.updateRetain b now position_ids)
    obtain ⟨g1, g2, g3, ⟨s, hs, hsid⟩, ⟨ks, hks, hkspid⟩⟩ :=
      foldProcess_locked_skip m.cancel_top_up_price_change_percent
        m.cancel_top_up_delay m.pnl_accuracy b now pid position_ids
        { kept := [], cache := m.positions_cache, locked := m.locked_ids,
          events := [], top_up_pnls := [], wallet_ids_to_remove := [],
          top_up_reserved := [] } hlock hcons
    have hsR : (m.updateRetain b now position_ids).events = s :=
      hs.trans (List.nil_append s)
    have hksR : (m.updateRetain b now position_ids).kept = ks :=
      hks.trans (List.nil_append ks)
    rw [hup]
    refine ⟨?_, ?_, ?_, ?_, hunlock⟩
    · rw [f1]
      exact g3
    · rw [f2]
      exact g1
    · intro instr hmem
      rw [f3]
      by_cases hinstr : instr = b.instrument
      · subst hinstr
        rw [alistGet_insert_self, Option.getD_some, hksR]
        have hpidl : pid ∈ position_ids := by
          rw [hids] at hmem
          exact hmem
        exact hkspid hpidl
      · rw [alistGet_insert_ne _ _ _ _ hinstr]
        exact hmem
    · intro ev hev
      rw [hw, hsR] at hev
      rcases List.mem_append.1 hev with ha | hb
      · exact hsid ev ha
      · simp [hwid ev hb]

/-- Claim C9 witness: on the concrete monitor `c9Monitor` whose only
position `"p-c4"` is locked, the tick `c4BidAsk` leaves the cache
entry untouched, keeps the id locked, emits no event about it, and
`unlock` removes the id. -/
theorem locked_position_skipped_by_update_witness :
    "p-c4" ∈ c9Monitor.locked_ids
    ∧ cacheConsistent c9Monitor.positions_cache
    ∧ alistGet (c9Monitor.update c4BidAsk 0).1.positions_cache "p-c4"
        = alistGet c9Monitor.positions_cache "p-c4"
    ∧ "p-c4" ∈ (c9Monitor.update c4BidAsk 0).1.locked_ids
    ∧ (∀ ev ∈ (c9Monitor.update c4BidAsk 0).2, ev.positionId ≠ some "p-c4")
    ∧ "p-c4" ∉ (c9Monitor.unlock "p-c4").locked_ids := by
  have hlock : "p-c4" ∈ c9Monitor.locked_ids := by
    show "p-c4" ∈ ["p-c4"]
    simp
  have hcons : cacheConsistent c9Monitor.positions_cache := by
    intro e he
    have heq : e = ("p-c4", Position.Active c4Position) := by
      simpa [c9Monitor] using he
    rw [heq]
    rfl
  obtain ⟨h1, h2, _, h4, h5⟩ :=
    locked_position_skipped_by_update c9Monitor c4BidAsk 0 "p-c4" hlock hcons
  exact ⟨hlock, hcons, h1, h2, h4, h5⟩

/-- Claim C4 (amended): `update` keeps the cache keyed consistently,
and every id left in the locked set after `update` either still refers
to a position present in the cache or has had a `PositionClosed` event
emitted for it during this very call (the stale locked id of a
lock-then-close position is observable through that event, not through
the cache). -/
theorem locked_ids_cached_or_closed_after_update (m : PositionsMonitor)
    (b : BidAsk) (now : ℕ)
    (hcons : cacheConsistent m.positions_cache)
    (hcov : ∀ x ∈ m.locked_ids, (alistGet m.positions_cache x).isSome = true) :
    cacheConsistent (m.update b now).1.positions_cache
    ∧ ∀ x ∈ (m.update b now).1.locked_ids,
        (alistGet (m.update b now).1.positions_cache x).isSome = true
        ∨ ∃ c, PositionMonitoringEvent.PositionClosed c ∈ (m.update b now).2
            ∧ c.id = x := by
  cases hids : alistGet m.ids_by_instruments b.instrument with
  | none =>
    have hup : m.update b now = (m, []) := by
      unfold PositionsMonitor.update
      rw [hids]
    rw [hup]
    exact ⟨hcons, fun x hx => Or.inl (hcov x hx)⟩
  | some position_ids =>
    have hup : m.update b now
        = m.updateFinish b (m.updateRetain b now position_ids) := by
      unfold PositionsMonitor.update
      rw [hids]
    obtain ⟨f1, f2, f3, w, hw, hwid⟩ :=
      updateFinish_fields m b (m.updateRetain b now position_ids)
    obtain ⟨g1, g2⟩ :=
      foldProcess_locked_covered m.cancel_top_up_price_change_percent
        m.cancel_top_up_delay m.pnl_accuracy b now position_ids
        { kept := [], cache := m.positions_cache, locked := m.locked_ids,
          events := [], top_up_pnls := [], wallet_ids_to_remove := [],
          top_up_reserved := [] } hcons (fun x hx => Or.inl (hcov x hx))
    rw [hup]
    refine ⟨?_, ?_⟩
    · rw [f1]
      exact g1
    · intro x hx
      rw [f2] at hx
      rcases g2 x hx with hsome | ⟨c, hc1, hc2⟩
      · left
        rw [f1]
        exact hsome
      · right
        refine ⟨c, ?_, hc2⟩
        rw [hw]
        exact List.mem_append.2 (Or.inl hc1)

/-- Claim C4 witness: the amended invariant instantiated on the
concrete lock-then-close monitor `c4Monitor` (whose position gets
locked for top-up and closed by stop-out within one `update` call). -/
theorem locked_ids_cached_or_closed_after_update_witness :
    cacheConsistent c4Monitor.positions_cache
    ∧ (∀ x ∈ c4Monitor.locked_ids,
        (alistGet c4Monitor.positions_cache x).isSome = true)
    ∧ cacheConsistent (c4Monitor.update c4BidAsk 0).1.positions_cache
    ∧ ∀ x ∈ (c4Monitor.update c4BidAsk 0).1.locked_ids,
        (alistGet (c4Monitor.update c4BidAsk 0).1.positions_cache x).isSome = true
        ∨ ∃ c, PositionMonitoringEvent.PositionClosed c
              ∈ (c4Monitor.update c4BidAsk 0).2
            ∧ c.id = x := by
  have hcons : cacheConsistent c4Monitor.positions_cache := by
    intro e he
    have heq : e = ("p-c4", Position.Active c4Position) := by
      simpa [c4Monitor] using he
    rw [heq]
    rfl
  have hcov : ∀ x ∈ c4Monitor.locked_ids,
      (alistGet c4Monitor.positions_cache x).isSome = true := by
    intro x hx
    exact absurd hx (List.not_mem_nil x)
  obtain ⟨h1, h2⟩ :=
    locked_ids_cached_or_closed_after_update c4Monitor c4BidAsk 0 hcons hcov
  exact ⟨hcons, hcov, h1, h2⟩

end TradingShared
